import Mathlib

/-!
Verification development for the `mls_roster_profiles` package: a shallow
embedding of the roster-profile data model (`models.py`, `enum.py`), the
post-extraction text cleanup (`__init__.py`) and the PDF page text extractor
(`pypdf/reader.py`, `pypdf/models.py`), together with theorems settling the
specification's claims about them.

Python strings are modelled through their character lists; Python `None` is
`Option.none`; operations that can raise (`TypeError` on `"+" in None`,
pydantic validation errors, missing fonts) return `Option`.
-/

namespace MRP

/-! ## Python string primitives (ASCII-faithful embeddings) -/

/-- Python `str(x)` for `x : str | None`: `str(None) = "None"`. -/
def pyStr : Option String → String
  | none => "None"
  | some s => s

/-- The characters removed by Python `str.strip()` and matched by `\s`
(ASCII range). -/
def isPyWs (c : Char) : Bool :=
  c == ' ' || c == '\t' || c == '\n' || c == '\r' ||
  c == Char.ofNat 11 || c == Char.ofNat 12

/-- Python `str.strip()` on a character list: drop leading and trailing
whitespace. -/
def pyStripList (l : List Char) : List Char :=
  ((l.dropWhile isPyWs).reverse.dropWhile isPyWs).reverse

/-- Python `str.strip()`. -/
def pyStrip (s : String) : String := ⟨pyStripList s.data⟩

/-- Python `str.lower()` (ASCII letters; the identity on characters without
an ASCII case). -/
def pyLower (s : String) : String := ⟨s.data.map Char.toLower⟩

/-- Python `s.startswith(pre)`. -/
def pyStartsWith (s pre : String) : Bool := pre.data.isPrefixOf s.data

/-- Python `c in s` for a single character `c`. -/
def pyContainsChar (s : String) (c : Char) : Bool := s.data.contains c

/-! ## `enum.py` — `StrEnumCaseInsensitive` and the four enumerations -/

/-- `StrEnumCaseInsensitive._process_value`:
`re.sub(r"–|-|\s", "", value.lower())` — lowercase, then delete every
en-dash, hyphen-minus and whitespace character. -/
def processValue (s : String) : String :=
  ⟨(s.data.map Char.toLower).filter
    (fun c => !(c == '–' || c == '-' || isPyWs c))⟩

/-- Python `Enum.__call__` on a `StrEnumCaseInsensitive`: exact value lookup
first, then `_missing_`, which scans members in definition order comparing
processed values. -/
def parseBy {α : Type} (val : α → String) (members : List α) (s : String) :
    Option α :=
  (members.find? (fun m => val m == s)) <|>
    (members.find? (fun m => processValue (val m) == processValue s))

inductive RosterSlot
  | SENIOR | SUPPLEMENTAL | SUPPLEMENTAL_31 | OFF_ROSTER
  deriving DecidableEq, Repr

def RosterSlot.value : RosterSlot → String
  | .SENIOR => "Senior Roster"
  | .SUPPLEMENTAL => "Supplemental Roster"
  | .SUPPLEMENTAL_31 => "Supplemental Spot 31"
  | .OFF_ROSTER => "Off-Roster (Unavailable)"

def rosterSlotMembers : List RosterSlot :=
  [.SENIOR, .SUPPLEMENTAL, .SUPPLEMENTAL_31, .OFF_ROSTER]

inductive RosterDesignation
  | YOUNG_DP | TAM | DP | U22 | HOMEGROWN | GENERATION_ADIDAS
  | PROFESSIONAL_DEVELOPMENT | SPECIAL_DISCOVERY
  deriving DecidableEq, Repr

def RosterDesignation.value : RosterDesignation → String
  | .YOUNG_DP => "Young Designated Player"
  | .TAM => "TAM Player"
  | .DP => "Designated Player"
  | .U22 => "U22 Initiative"
  | .HOMEGROWN => "Homegrown Player"
  | .GENERATION_ADIDAS => "Generation adidas"
  | .PROFESSIONAL_DEVELOPMENT => "Professional Player Development Role"
  | .SPECIAL_DISCOVERY => "Special Discovery Player"

def rosterDesignationMembers : List RosterDesignation :=
  [.YOUNG_DP, .TAM, .DP, .U22, .HOMEGROWN, .GENERATION_ADIDAS,
   .PROFESSIONAL_DEVELOPMENT, .SPECIAL_DISCOVERY]

inductive CurrentStatus
  | ON_LOAN | SEI | P1_ITC | UNAVAILABLE_OTHER | UNAVAILABLE_UNSPECIFIED
  | OFF_BUDGET | LOAN_PLAYER | INJURED
  deriving DecidableEq, Repr

def CurrentStatus.value : CurrentStatus → String
  | .ON_LOAN => "Unavailable - On Loan"
  | .SEI => "Unavailable - SEI"
  | .P1_ITC => "Unavailable - P1/ITC"
  | .UNAVAILABLE_OTHER => "Unavailable - Other"
  | .UNAVAILABLE_UNSPECIFIED => "Unavailable"
  | .OFF_BUDGET => "Off-Budget"
  | .LOAN_PLAYER => "Loan Player"
  | .INJURED => "Unavailable - Injured List"

def currentStatusMembers : List CurrentStatus :=
  [.ON_LOAN, .SEI, .P1_ITC, .UNAVAILABLE_OTHER, .UNAVAILABLE_UNSPECIFIED,
   .OFF_BUDGET, .LOAN_PLAYER, .INJURED]

inductive RosterConstructionModel
  | DESIGNATED_PLAYER | U22_INITIATIVE
  deriving DecidableEq, Repr

def RosterConstructionModel.value : RosterConstructionModel → String
  | .DESIGNATED_PLAYER => "Designated Player Model"
  | .U22_INITIATIVE => "U22 Initiative Player Model"

def rosterConstructionModelMembers : List RosterConstructionModel :=
  [.DESIGNATED_PLAYER, .U22_INITIATIVE]

def parseRosterSlot : String → Option RosterSlot :=
  parseBy RosterSlot.value rosterSlotMembers

def parseRosterDesignation : String → Option RosterDesignation :=
  parseBy RosterDesignation.value rosterDesignationMembers

def parseCurrentStatus : String → Option CurrentStatus :=
  parseBy CurrentStatus.value currentStatusMembers

def parseRosterConstructionModel : String → Option RosterConstructionModel :=
  parseBy RosterConstructionModel.value rosterConstructionModelMembers

/-! ## The spec's normalization for claim C5

The spec describes enumeration matching as "case-insensitive match after
normalizing unicode en-dash to hyphen and stripping spaces". -/

/-- Normalization as the specification words it: lowercase, replace en-dash
(U+2013) by hyphen-minus, delete spaces. -/
def specNorm (s : String) : String :=
  ⟨((s.data.map Char.toLower).map
      (fun c => if c = '–' then '-' else c)).filter (fun c => c ≠ ' ')⟩

lemma processValue_of_specNorm_aux (l : List Char) :
    l.filter (fun c => !(c == '–' || c == '-' || isPyWs c)) =
      ((l.map (fun c => if c = '–' then '-' else c)).filter
        (fun c => c ≠ ' ')).filter (fun c => !(c == '-' || isPyWs c)) := by
  induction l with
  | nil => rfl
  | cons a l ih =>
    rw [List.map_cons, List.filter_cons, List.filter_cons]
    by_cases ha : a = '–'
    · subst ha
      have e1 : (!('–' == '–' || '–' == '-' || isPyWs '–')) = false := by decide
      have e2 : ((if ('–' : Char) = '–' then '-' else '–') : Char) = '-' := by
        decide
      rw [e1, e2]
      have e3 : decide (('-' : Char) ≠ ' ') = true := by decide
      have e4 : (!(('-' : Char) == '-' || isPyWs '-')) = false := by decide
      simp only [e3, if_true, List.filter_cons, e4, Bool.false_eq_true,
        if_false, ih]
    · have hfix : ((if a = '–' then '-' else a) : Char) = a := if_neg ha
      rw [hfix]
      by_cases hh : a = '-'
      · subst hh
        have e1 : (!(('-' : Char) == '–' || ('-' : Char) == '-' ||
            isPyWs '-')) = false := by decide
        have e3 : decide (('-' : Char) ≠ ' ') = true := by decide
        have e4 : (!(('-' : Char) == '-' || isPyWs '-')) = false := by decide
        rw [e1]
        simp only [e3, if_true, List.filter_cons, e4, Bool.false_eq_true,
          if_false, ih]
      · have ebd : (a == '–') = false := beq_eq_false_iff_ne.mpr ha
        have ebh : (a == '-') = false := beq_eq_false_iff_ne.mpr hh
        by_cases hs : isPyWs a
        · have e1 : (!(a == '–' || a == '-' || isPyWs a)) = false := by
            rw [ebd, ebh, hs]; rfl
          by_cases hsp : a = ' '
          · subst hsp
            have e3 : decide ((' ' : Char) ≠ ' ') = false := by decide
            rw [e1]
            simp only [e3, Bool.false_eq_true, if_false, ih]
          · have e3 : decide (a ≠ ' ') = true := decide_eq_true hsp
            have e4 : (!(a == '-' || isPyWs a)) = false := by
              rw [ebh, hs]; rfl
            rw [e1]
            simp only [e3, if_true, List.filter_cons, e4, Bool.false_eq_true,
              if_false, ih]
        · have hs' : isPyWs a = false := Bool.of_not_eq_true hs
          have hsp : a ≠ ' ' := by
            intro h; subst h; exact hs (by decide)
          have e1 : (!(a == '–' || a == '-' || isPyWs a)) = true := by
            rw [ebd, ebh, hs']; rfl
          have e3 : decide (a ≠ ' ') = true := decide_eq_true hsp
          have e4 : (!(a == '-' || isPyWs a)) = true := by
            rw [ebh, hs']; rfl
          rw [e1]
          simp only [e3, if_true, List.filter_cons, e4, ih]

/-- If two strings agree after the spec's normalization, they agree after the
code's `_process_value`. -/
lemma processValue_eq_of_specNorm_eq {s t : String}
    (h : specNorm s = specNorm t) : processValue s = processValue t := by
  have hd : (specNorm s).data = (specNorm t).data := by rw [h]
  simp only [specNorm] at hd
  simp only [processValue]
  congr 1
  rw [processValue_of_specNorm_aux, processValue_of_specNorm_aux, hd]

lemma find?_pred {α : Type} {p : α → Bool} {l : List α} {a : α}
    (h : l.find? p = some a) : p a = true := List.find?_some h

lemma parseBy_isSome_iff {α : Type} (val : α → String) (members : List α)
    (s : String) :
    (parseBy val members s).isSome = true ↔
      ∃ m, m ∈ members ∧ processValue (val m) = processValue s := by
  unfold parseBy
  cases h1 : members.find? (fun m => val m == s) with
  | some m =>
    have hm : m ∈ members := List.mem_of_find?_eq_some h1
    have hv := find?_pred h1
    have hv' : val m = s := eq_of_beq (by simpa using hv)
    simp only [Option.some_orElse, Option.isSome_some, true_iff]
    exact ⟨m, hm, by rw [hv']⟩
  | none =>
    simp only [Option.none_orElse]
    constructor
    · intro h
      obtain ⟨m, hm, hp⟩ := List.find?_isSome.mp h
      exact ⟨m, hm, eq_of_beq (by simpa using hp)⟩
    · intro h
      obtain ⟨m, hm, hp⟩ := h
      exact List.find?_isSome.mpr ⟨m, hm, by simpa using beq_iff_eq.mpr hp⟩

lemma parseBy_specNorm_sufficient {α : Type} (val : α → String)
    (members : List α) (s : String) (m : α) (hm : m ∈ members)
    (h : specNorm s = specNorm (val m)) :
    (parseBy val members s).isSome = true :=
  (parseBy_isSome_iff val members s).mpr
    ⟨m, hm, (processValue_eq_of_specNorm_eq h).symm⟩

lemma parseBy_specNorm_invariant {α : Type} (val : α → String)
    (members : List α) (s t : String) (h : specNorm s = specNorm t) :
    (parseBy val members s).isSome = (parseBy val members t).isSome := by
  have hp : processValue s = processValue t := processValue_eq_of_specNorm_eq h
  apply Bool.eq_iff_iff.mpr
  rw [parseBy_isSome_iff, parseBy_isSome_iff, hp]

/-- C5: enumeration membership succeeds whenever the candidate string and a
member value agree after lowercasing, normalizing en-dash to hyphen and
removing spaces; membership is invariant under those differences. -/
theorem enum_membership_specNorm :
    ((∀ s m, m ∈ rosterSlotMembers → specNorm s = specNorm m.value →
        (parseRosterSlot s).isSome = true) ∧
     (∀ s m, m ∈ rosterDesignationMembers → specNorm s = specNorm m.value →
        (parseRosterDesignation s).isSome = true) ∧
     (∀ s m, m ∈ currentStatusMembers → specNorm s = specNorm m.value →
        (parseCurrentStatus s).isSome = true) ∧
     (∀ s m, m ∈ rosterConstructionModelMembers →
        specNorm s = specNorm m.value →
        (parseRosterConstructionModel s).isSome = true)) ∧
    ((∀ s t, specNorm s = specNorm t →
        (parseRosterSlot s).isSome = (parseRosterSlot t).isSome) ∧
     (∀ s t, specNorm s = specNorm t →
        (parseRosterDesignation s).isSome = (parseRosterDesignation t).isSome) ∧
     (∀ s t, specNorm s = specNorm t →
        (parseCurrentStatus s).isSome = (parseCurrentStatus t).isSome) ∧
     (∀ s t, specNorm s = specNorm t →
        (parseRosterConstructionModel s).isSome =
          (parseRosterConstructionModel t).isSome)) := by
  refine ⟨⟨?_, ?_, ?_, ?_⟩, ⟨?_, ?_, ?_, ?_⟩⟩
  · exact fun s m hm h => parseBy_specNorm_sufficient _ _ s m hm h
  · exact fun s m hm h => parseBy_specNorm_sufficient _ _ s m hm h
  · exact fun s m hm h => parseBy_specNorm_sufficient _ _ s m hm h
  · exact fun s m hm h => parseBy_specNorm_sufficient _ _ s m hm h
  · exact fun s t h => parseBy_specNorm_invariant _ _ s t h
  · exact fun s t h => parseBy_specNorm_invariant _ _ s t h
  · exact fun s t h => parseBy_specNorm_invariant _ _ s t h
  · exact fun s t h => parseBy_specNorm_invariant _ _ s t h

/-- Witness for C5 at concrete inputs: `"OFF–Roster (Unavailable)"` (with an
en-dash and different casing) is accepted as `RosterSlot.OFF_ROSTER`, and
membership is unchanged between `"off - budget"` and `"Off-Budget"`. -/
theorem enum_membership_specNorm_witness :
    (parseRosterSlot "OFF–Roster (Unavailable)").isSome = true ∧
    (parseCurrentStatus "off - budget").isSome =
      (parseCurrentStatus "Off-Budget").isSome := by
  constructor
  · exact enum_membership_specNorm.1.1 "OFF–Roster (Unavailable)"
      .OFF_ROSTER (by decide) (by decide)
  · exact enum_membership_specNorm.2.2.2.1 "off - budget" "Off-Budget"
      (by decide)

/-! ## `models.py` — data model and validators -/

/-- `Player.validate_roster_designation` / `validate_current_status` /
`Team.validate_roster_construction_model`: on a truthy (non-empty) string,
try the enumeration; on failure keep the raw string (and warn). Falsy input
(`None` or `""`) becomes `None`. -/
def validateEnumOrStr {α : Type} (val : α → String) (members : List α) :
    Option String → Option (α ⊕ String)
  | none => none
  | some s =>
    if s = "" then none
    else
      match parseBy val members s with
      | some m => some (Sum.inl m)
      | none => some (Sum.inr s)

/-- Whether one of the enum-or-string validators surfaces a warning
(`logger.warning(... Returning as string.)`) for a given raw input. -/
def validateEnumWarns {α : Type} (val : α → String) (members : List α) :
    Option String → Bool
  | none => false
  | some s => s ≠ "" && (parseBy val members s).isNone

def validateRosterDesignation : Option String →
    Option (RosterDesignation ⊕ String) :=
  validateEnumOrStr RosterDesignation.value rosterDesignationMembers

def validateCurrentStatus : Option String →
    Option (CurrentStatus ⊕ String) :=
  validateEnumOrStr CurrentStatus.value currentStatusMembers

def validateRosterConstructionModel : Option String →
    Option (RosterConstructionModel ⊕ String) :=
  validateEnumOrStr RosterConstructionModel.value rosterConstructionModelMembers

structure Player where
  id_ : Option String := none
  name : String
  roster_slot : RosterSlot
  roster_designation : Option (RosterDesignation ⊕ String) := none
  current_status : Option (CurrentStatus ⊕ String) := none
  contract_through : Option String := none
  option_years : Option String := none
  permanent_transfer_option : Option Bool := none
  international_slot : Bool := false
  convertible_with_tam : Option Bool := none
  unavailable : Bool := false
  canadian_international_slot_exemption : Option Bool := none
  deriving DecidableEq, Repr

structure Team where
  id_ : Option String := none
  name : String
  roster_construction_model : Option (RosterConstructionModel ⊕ String) := none
  players : List Player := []
  international_slots : Int
  gam_available : Option Int := none
  deriving DecidableEq, Repr

structure SmallTableRow where
  player_name : Option String := none
  deriving DecidableEq, Repr

structure SmallTable where
  title : String
  rows : List SmallTableRow := []
  deriving DecidableEq, Repr

structure LargeTableRow where
  player_name : String
  roster_designation : Option String := none
  current_status : Option String := none
  contract_through : Option String := none
  option_years : Option String := none
  deriving DecidableEq, Repr

structure LargeTable where
  title : String
  rows : List LargeTableRow := []
  deriving DecidableEq, Repr

/-- Calendar date (for `release_date`); its parsing is delegated to the host
library and plays no role in the verified pipeline. -/
structure SimpleDate where
  year : Nat
  month : Nat
  day : Nat
  deriving DecidableEq, Repr

structure RosterProfile where
  team_name : String
  release_date : SimpleDate
  roster_construction_model : Option String := none
  gam_available : Option Int := none
  small_tables : List SmallTable := []
  large_tables : List LargeTable := []
  deriving DecidableEq, Repr

/-- `Python: player.roster_designation == RosterDesignation.DP`. A stored
member compares as that member; a stored raw string compares by `StrEnum`
string equality with `"Designated Player"`. -/
def isDPEq : Option (RosterDesignation ⊕ String) → Bool
  | some (Sum.inl d) => d == RosterDesignation.DP
  | some (Sum.inr s) => s == RosterDesignation.DP.value
  | none => false

/-- `Python: player.current_status == CurrentStatus.LOAN_PLAYER`. -/
def isLoanEq : Option (CurrentStatus ⊕ String) → Bool
  | some (Sum.inl c) => c == CurrentStatus.LOAN_PLAYER
  | some (Sum.inr s) => s == CurrentStatus.LOAN_PLAYER.value
  | none => false

/-! ### `RosterProfile._get_international_slots` -/

/-- `re.search(r"\d+", s)` followed by `int(...)`: the leftmost maximal run
of decimal digits, as a number. -/
def firstDigitRun : List Char → Option Nat
  | [] => none
  | c :: cs =>
    if c.isDigit then
      some (((c :: cs.takeWhile Char.isDigit).map
        (fun d => d.toNat - '0'.toNat)).foldl (fun acc d => 10 * acc + d) 0)
    else firstDigitRun cs

def titleStartsIntl (t : SmallTable) : Bool :=
  pyStartsWith (pyLower t.title) "international"

def titleStartsDesignated (t : SmallTable) : Bool :=
  pyStartsWith (pyLower t.title) "designated"

def titleStartsUnavailable (t : SmallTable) : Bool :=
  pyStartsWith (pyLower t.title) "unavailable"

/-- `RosterProfile._get_international_slots`: scan the small tables; on each
whose lowercased title starts with `"international"`, return the first
integer of the title if there is one, otherwise keep scanning. Falls off the
end with `None`. -/
def getInternationalSlots : List SmallTable → Option Nat
  | [] => none
  | t :: ts =>
    if titleStartsIntl t then
      match firstDigitRun t.title.data with
      | some n => some n
      | none => getInternationalSlots ts
    else getInternationalSlots ts

/-! ### `RosterProfile._enrich_from_international_slots` -/

/-- `str(row.player_name).lower().startswith(player.name.lower())`. -/
def rowMatches (name : String) (r : SmallTableRow) : Bool :=
  pyStartsWith (pyLower (pyStr r.player_name)) (pyLower name)

/-- `"+" in str(row.player_name)`. -/
def rowHasPlusStr (r : SmallTableRow) : Bool :=
  pyContainsChar (pyStr r.player_name) '+'

/-- Inner row loop of `_enrich_from_international_slots`: on the first row
whose name starts with the player's name, set `international_slot`, set the
exemption if the row carries `"+"`, and `break`. `"+" in row.player_name`
raises `TypeError` when the matching row's name is `None`. -/
def intlApplyRows (p : Player) : List SmallTableRow → Option Player
  | [] => some p
  | r :: rs =>
    if rowMatches p.name r then
      match r.player_name with
      | none => none
      | some s =>
        some { p with
          international_slot := true
          canadian_international_slot_exemption :=
            if pyContainsChar s '+' then some true
            else p.canadian_international_slot_exemption }
    else intlApplyRows p rs

/-- One table of `_enrich_from_international_slots`: tables whose title does
not start with `"international"` are skipped; otherwise the blanket
`canadian_international_slot_exemption = False` write happens first when any
row's name contains `"+"`, then the row loop runs. -/
def enrichIntlTable (p : Player) (t : SmallTable) : Option Player :=
  if titleStartsIntl t then
    intlApplyRows
      (if t.rows.any rowHasPlusStr then
        { p with canadian_international_slot_exemption := some false }
      else p) t.rows
  else some p

def enrichFromInternationalSlots : List SmallTable → Player → Option Player
  | [], p => some p
  | t :: ts, p => (enrichIntlTable p t).bind (enrichFromInternationalSlots ts)

/-! ### `RosterProfile._enrich_from_designated_players` -/

/-- Inner row loop of `_enrich_from_designated_players` (no `break`): every
matching row whose name contains `"^"` writes
`convertible_with_tam = False`; a matching row with name `None` raises on
`"^" in row.player_name`. -/
def dpApplyRows (p : Player) : List SmallTableRow → Option Player
  | [] => some p
  | r :: rs =>
    if rowMatches p.name r then
      match r.player_name with
      | none => none
      | some s =>
        dpApplyRows
          (if pyContainsChar s '^' then
            { p with convertible_with_tam := some false }
          else p) rs
    else dpApplyRows p rs

def dpApplyTables : List SmallTable → Player → Option Player
  | [], p => some p
  | t :: ts, p =>
    if titleStartsDesignated t then
      (dpApplyRows p t.rows).bind (dpApplyTables ts)
    else dpApplyTables ts p

def enrichFromDesignatedPlayers (tables : List SmallTable) (p : Player) :
    Option Player :=
  if isDPEq p.roster_designation then
    dpApplyTables tables { p with convertible_with_tam := some true }
  else some p

/-! ### `RosterProfile._enrich_from_unavailable_players` -/

def unavailApplyRows : List SmallTableRow → Player → Player
  | [], p => p
  | r :: rs, p =>
    unavailApplyRows rs
      (if rowMatches p.name r then { p with unavailable := true } else p)

def enrichFromUnavailablePlayers : List SmallTable → Player → Player
  | [], p => p
  | t :: ts, p =>
    enrichFromUnavailablePlayers ts
      (if titleStartsUnavailable t then unavailApplyRows t.rows p else p)

/-! ### `RosterProfile._enrich_player` and `_get_players` -/

/-- `RosterProfile._enrich_player`: the three table enrichments in order,
then the loan-hygiene reset of `permanent_transfer_option`. -/
def enrichPlayer (tables : List SmallTable) (p : Player) : Option Player :=
  (enrichFromInternationalSlots tables p).bind fun p1 =>
    (enrichFromDesignatedPlayers tables p1).bind fun p2 =>
      let p3 := enrichFromUnavailablePlayers tables p2
      some { p3 with
        permanent_transfer_option :=
          if isLoanEq p3.current_status then p3.permanent_transfer_option
          else none }

/-- Constructing one `Player` from a large-table row (`Player(...)` within
`_get_players`): pydantic rejects a `roster_slot` outside `RosterSlot`
(a strict enum field), strips whitespace on the constrained string fields,
and runs the enum-or-string validators on designation and status.
`permanent_transfer_option` is `str(row.option_years).startswith("PT")`. -/
def mkPlayerFromRow (title : String) (r : LargeTableRow) : Option Player :=
  match parseRosterSlot title with
  | none => none
  | some slot =>
    some {
      name := pyStrip r.player_name
      roster_slot := slot
      roster_designation := validateRosterDesignation r.roster_designation
      current_status := validateCurrentStatus r.current_status
      contract_through := r.contract_through.map pyStrip
      option_years := r.option_years.map pyStrip
      permanent_transfer_option :=
        some (pyStartsWith (pyStr r.option_years) "PT") }

def buildRows (tables : List SmallTable) (title : String) :
    List LargeTableRow → Option (List Player)
  | [] => some []
  | r :: rs =>
    (mkPlayerFromRow title r).bind fun p =>
      (enrichPlayer tables p).bind fun q =>
        (buildRows tables title rs).map fun ps => q :: ps

def buildTables (tables : List SmallTable) :
    List LargeTable → Option (List Player)
  | [] => some []
  | t :: ts =>
    (buildRows tables t.title t.rows).bind fun ps =>
      (buildTables tables ts).map fun qs => ps ++ qs

/-- `RosterProfile._get_players`. -/
def getPlayers (rp : RosterProfile) : Option (List Player) :=
  buildTables rp.small_tables rp.large_tables

/-- `RosterProfile.to_team`: build the `Team`. `Team.international_slots`
is a required `int` field, so pydantic rejects the construction when
`_get_international_slots` returned `None`; any exception raised while
building the players also propagates. -/
def toTeam (rp : RosterProfile) : Option Team :=
  match getInternationalSlots rp.small_tables, getPlayers rp with
  | some n, some ps =>
    some {
      name := pyStrip rp.team_name
      roster_construction_model :=
        validateRosterConstructionModel rp.roster_construction_model
      players := ps
      international_slots := (n : Int)
      gam_available := rp.gam_available }
  | _, _ => none

/-! ## Characterizations of the enrichment passes

Each pass writes field values that depend only on the small tables and the
player's (never rewritten) `name`, `roster_designation` and
`current_status`; the lemmas below compute those writes as pure functions,
which the claim theorems then reason about. -/

def firstMatchRow (name : String) (rows : List SmallTableRow) :
    Option SmallTableRow :=
  rows.find? (rowMatches name)

/-- The international pass raises on this table: its first row matching the
player has `player_name = None`. -/
def tableIntlCrash (name : String) (t : SmallTable) : Bool :=
  titleStartsIntl t &&
    (match firstMatchRow name t.rows with
     | some r => r.player_name.isNone
     | none => false)

def tableIntlMatched (name : String) (t : SmallTable) : Bool :=
  titleStartsIntl t && (firstMatchRow name t.rows).isSome

/-- The last value this table writes into
`canadian_international_slot_exemption`, if it writes at all. -/
def tableExWrite (name : String) (t : SmallTable) : Option Bool :=
  if titleStartsIntl t then
    match firstMatchRow name t.rows with
    | some r =>
      match r.player_name with
      | some s =>
        if pyContainsChar s '+' then some true
        else if t.rows.any rowHasPlusStr then some false else none
      | none => none
    | none => if t.rows.any rowHasPlusStr then some false else none
  else none

def intlCrashL (name : String) (ts : List SmallTable) : Bool :=
  ts.any (tableIntlCrash name)

def intlMatchedL (name : String) (ts : List SmallTable) : Bool :=
  ts.any (tableIntlMatched name)

def intlExWriteL (name : String) : List SmallTable → Option Bool
  | [] => none
  | t :: ts => (intlExWriteL name ts).orElse (fun _ => tableExWrite name t)

/-- Apply a pending write (`some v` writes the value `some v`; `none` leaves
the tri-state field untouched). -/
def applyWrite (w : Option Bool) (e : Option Bool) : Option Bool :=
  match w with
  | some v => some v
  | none => e

lemma applyWrite_orElse (a b e : Option Bool) :
    applyWrite (a.orElse (fun _ => b)) e = applyWrite a (applyWrite b e) := by
  cases a <;> rfl

lemma intlApplyRows_char (p : Player) (rows : List SmallTableRow) :
    intlApplyRows p rows =
      match rows.find? (rowMatches p.name) with
      | none => some p
      | some r =>
        match r.player_name with
        | none => none
        | some s =>
          some { p with
            international_slot := true
            canadian_international_slot_exemption :=
              if pyContainsChar s '+' then some true
              else p.canadian_international_slot_exemption } := by
  induction rows with
  | nil => rfl
  | cons r rs ih =>
    by_cases hm : rowMatches p.name r
    · rw [intlApplyRows, if_pos hm, List.find?_cons_of_pos _ hm]
    · rw [intlApplyRows, if_neg hm, List.find?_cons_of_neg _ hm, ih]

lemma enrichIntlTable_char (p : Player) (t : SmallTable) :
    enrichIntlTable p t =
      if tableIntlCrash p.name t then none
      else
        some { p with
          international_slot :=
            p.international_slot || tableIntlMatched p.name t
          canadian_international_slot_exemption :=
            applyWrite (tableExWrite p.name t)
              p.canadian_international_slot_exemption } := by
  by_cases ht : titleStartsIntl t
  · rw [enrichIntlTable, if_pos ht]
    by_cases hp : t.rows.any rowHasPlusStr
    · rw [if_pos hp]
      rw [intlApplyRows_char]
      cases hfm : List.find? (rowMatches p.name) t.rows with
      | none =>
        simp [tableIntlCrash, tableIntlMatched, tableExWrite, firstMatchRow,
          hfm, ht, hp, applyWrite]
      | some r =>
        cases hpn : r.player_name with
        | none =>
          simp [tableIntlCrash, firstMatchRow, hfm, hpn, ht]
        | some s =>
          by_cases hplus : pyContainsChar s '+'
          · simp [tableIntlCrash, tableIntlMatched, tableExWrite,
              firstMatchRow, hfm, hpn, hplus, ht, hp, applyWrite]
          · simp [tableIntlCrash, tableIntlMatched, tableExWrite,
              firstMatchRow, hfm, hpn, hplus, ht, hp, applyWrite]
    · rw [if_neg hp]
      rw [intlApplyRows_char]
      cases hfm : List.find? (rowMatches p.name) t.rows with
      | none =>
        simp [tableIntlCrash, tableIntlMatched, tableExWrite, firstMatchRow,
          hfm, ht, hp, applyWrite]
      | some r =>
        cases hpn : r.player_name with
        | none =>
          simp [tableIntlCrash, firstMatchRow, hfm, hpn, ht]
        | some s =>
          by_cases hplus : pyContainsChar s '+'
          · simp [tableIntlCrash, tableIntlMatched, tableExWrite,
              firstMatchRow, hfm, hpn, hplus, ht, hp, applyWrite]
          · simp [tableIntlCrash, tableIntlMatched, tableExWrite,
              firstMatchRow, hfm, hpn, hplus, ht, hp, applyWrite]
  · rw [enrichIntlTable, if_neg ht]
    simp [tableIntlCrash, tableIntlMatched, tableExWrite, ht, applyWrite]

lemma enrichIntl_char (ts : List SmallTable) (p : Player) :
    enrichFromInternationalSlots ts p =
      if intlCrashL p.name ts then none
      else
        some { p with
          international_slot :=
            p.international_slot || intlMatchedL p.name ts
          canadian_international_slot_exemption :=
            applyWrite (intlExWriteL p.name ts)
              p.canadian_international_slot_exemption } := by
  induction ts generalizing p with
  | nil =>
    simp [enrichFromInternationalSlots, intlCrashL, intlMatchedL,
      intlExWriteL, applyWrite]
  | cons t ts ih =>
    rw [enrichFromInternationalSlots, enrichIntlTable_char]
    by_cases hc : tableIntlCrash p.name t
    · simp [hc, intlCrashL, List.any_cons]
    · rw [if_neg hc, Option.some_bind, ih]
      have hcl : intlCrashL p.name (t :: ts) = intlCrashL p.name ts := by
        simp [intlCrashL, List.any_cons, Bool.of_not_eq_true hc]
      rw [hcl]
      by_cases hcr : intlCrashL p.name ts
      · simp [hcr]
      · rw [if_neg hcr, if_neg hcr]
        have hml : intlMatchedL p.name (t :: ts) =
            (tableIntlMatched p.name t || intlMatchedL p.name ts) := by
          simp [intlMatchedL, List.any_cons]
        rw [hml, intlExWriteL, applyWrite_orElse, ← Bool.or_assoc]

/-- The designated pass raises on this table: some row matching the player
has `player_name = None`. -/
def tableDPCrash (name : String) (t : SmallTable) : Bool :=
  titleStartsDesignated t &&
    t.rows.any (fun r => rowMatches name r && r.player_name.isNone)

/-- Some row of this designated table matches the player and carries `"^"`. -/
def tableDPCaret (name : String) (t : SmallTable) : Bool :=
  titleStartsDesignated t &&
    t.rows.any (fun r => rowMatches name r &&
      (match r.player_name with
       | some s => pyContainsChar s '^'
       | none => false))

def dpCrashL (name : String) (ts : List SmallTable) : Bool :=
  ts.any (tableDPCrash name)

def dpCaretL (name : String) (ts : List SmallTable) : Bool :=
  ts.any (tableDPCaret name)

lemma dpApplyRows_char (p : Player) (rows : List SmallTableRow) :
    dpApplyRows p rows =
      if rows.any (fun r => rowMatches p.name r && r.player_name.isNone) then
        none
      else if rows.any (fun r => rowMatches p.name r &&
          (match r.player_name with
           | some s => pyContainsChar s '^'
           | none => false)) then
        some { p with convertible_with_tam := some false }
      else some p := by
  induction rows generalizing p with
  | nil => rfl
  | cons r rs ih =>
    by_cases hm : rowMatches p.name r
    · cases hpn : r.player_name with
      | none => simp [dpApplyRows, hm, hpn, List.any_cons]
      | some s =>
        by_cases hcaret : pyContainsChar s '^'
        · simp [dpApplyRows, hm, hpn, hcaret, ih, List.any_cons, ite_self]
        · simp [dpApplyRows, hm, hpn, hcaret, ih, List.any_cons]
    · simp [dpApplyRows, hm, ih, List.any_cons]

lemma dpApplyTables_char (ts : List SmallTable) (p : Player) :
    dpApplyTables ts p =
      if dpCrashL p.name ts then none
      else if dpCaretL p.name ts then
        some { p with convertible_with_tam := some false }
      else some p := by
  induction ts generalizing p with
  | nil => rfl
  | cons t ts ih =>
    by_cases ht : titleStartsDesignated t
    · rw [dpApplyTables, if_pos ht, dpApplyRows_char]
      by_cases hcr : t.rows.any
          (fun r => rowMatches p.name r && r.player_name.isNone)
      · simp [hcr, dpCrashL, tableDPCrash, List.any_cons, ht]
      · rw [if_neg hcr]
        have hcrl : dpCrashL p.name (t :: ts) = dpCrashL p.name ts := by
          simp [dpCrashL, tableDPCrash, List.any_cons, ht,
            Bool.of_not_eq_true hcr]
        by_cases hc2 : t.rows.any (fun r => rowMatches p.name r &&
            (match r.player_name with
             | some s => pyContainsChar s '^'
             | none => false))
        · rw [if_pos hc2, Option.some_bind, ih]
          have hctl : dpCaretL p.name (t :: ts) = true := by
            simp [dpCaretL, tableDPCaret, List.any_cons, ht, hc2]
          rw [hcrl, hctl]
          by_cases hcr2 : dpCrashL p.name ts
          · simp [hcr2]
          · simp only [hcr2, Bool.false_eq_true, if_false, if_true]
            by_cases hct2 : dpCaretL p.name ts
            · simp [hct2]
            · simp [hct2]
        · rw [if_neg hc2, Option.some_bind, ih]
          have hctl : dpCaretL p.name (t :: ts) = dpCaretL p.name ts := by
            simp [dpCaretL, tableDPCaret, List.any_cons, ht,
              Bool.of_not_eq_true hc2]
          rw [hcrl, hctl]
    · rw [dpApplyTables, if_neg ht, ih]
      have h1 : dpCrashL p.name (t :: ts) = dpCrashL p.name ts := by
        simp [dpCrashL, tableDPCrash, List.any_cons, Bool.of_not_eq_true ht]
      have h2 : dpCaretL p.name (t :: ts) = dpCaretL p.name ts := by
        simp [dpCaretL, tableDPCaret, List.any_cons, Bool.of_not_eq_true ht]
      rw [h1, h2]

lemma enrichDP_char (ts : List SmallTable) (p : Player) :
    enrichFromDesignatedPlayers ts p =
      if isDPEq p.roster_designation then
        (if dpCrashL p.name ts then none
         else
           some { p with
             convertible_with_tam := some (!dpCaretL p.name ts) })
      else some p := by
  unfold enrichFromDesignatedPlayers
  by_cases hdp : isDPEq p.roster_designation
  · rw [if_pos hdp, if_pos hdp, dpApplyTables_char]
    by_cases hcr : dpCrashL p.name ts
    · simp [hcr]
    · rw [if_neg hcr, if_neg hcr]
      by_cases hct : dpCaretL p.name ts
      · simp [hct]
      · simp [hct]
  · rw [if_neg hdp, if_neg hdp]

def unavailL (name : String) (ts : List SmallTable) : Bool :=
  ts.any (fun t => titleStartsUnavailable t && t.rows.any (rowMatches name))

lemma unavailApplyRows_char (rows : List SmallTableRow) (p : Player) :
    unavailApplyRows rows p =
      { p with unavailable := p.unavailable || rows.any (rowMatches p.name) }
    := by
  induction rows generalizing p with
  | nil => simp [unavailApplyRows]
  | cons r rs ih =>
    by_cases hm : rowMatches p.name r
    · rw [unavailApplyRows, if_pos hm, ih]
      simp [List.any_cons, hm]
    · rw [unavailApplyRows, if_neg hm, ih]
      simp [List.any_cons, hm]

lemma enrichUnavail_char (ts : List SmallTable) (p : Player) :
    enrichFromUnavailablePlayers ts p =
      { p with unavailable := p.unavailable || unavailL p.name ts } := by
  induction ts generalizing p with
  | nil => simp [enrichFromUnavailablePlayers, unavailL]
  | cons t ts ih =>
    by_cases ht : titleStartsUnavailable t
    · rw [enrichFromUnavailablePlayers, if_pos ht, unavailApplyRows_char, ih]
      simp [unavailL, List.any_cons, ht, Bool.or_assoc]
    · rw [enrichFromUnavailablePlayers, if_neg ht, ih]
      simp [unavailL, List.any_cons, Bool.of_not_eq_true ht]

/-- Whether `_enrich_player` raises a `TypeError` for this player. -/
def enrichCrash (tables : List SmallTable) (p : Player) : Bool :=
  intlCrashL p.name tables ||
    (isDPEq p.roster_designation && dpCrashL p.name tables)

/-- The functional result of `_enrich_player` when it does not raise. -/
def enrichResult (tables : List SmallTable) (p : Player) : Player :=
  { p with
    international_slot := p.international_slot || intlMatchedL p.name tables
    canadian_international_slot_exemption :=
      applyWrite (intlExWriteL p.name tables)
        p.canadian_international_slot_exemption
    convertible_with_tam :=
      if isDPEq p.roster_designation then some (!dpCaretL p.name tables)
      else p.convertible_with_tam
    unavailable := p.unavailable || unavailL p.name tables
    permanent_transfer_option :=
      if isLoanEq p.current_status then p.permanent_transfer_option
      else none }

lemma enrichPlayer_char (tables : List SmallTable) (p : Player) :
    enrichPlayer tables p =
      if enrichCrash tables p then none
      else some (enrichResult tables p) := by
  unfold enrichPlayer
  rw [enrichIntl_char]
  by_cases hic : intlCrashL p.name tables
  · simp [hic, enrichCrash]
  · rw [if_neg hic, Option.some_bind, enrichDP_char]
    by_cases hdp : isDPEq p.roster_designation
    · rw [if_pos hdp]
      by_cases hcr : dpCrashL p.name tables
      · simp only [hcr, if_true, Option.none_bind]
        have : enrichCrash tables p = true := by
          simp [enrichCrash, hdp, hcr]
        rw [this, if_pos rfl]
      · rw [if_neg hcr, Option.some_bind, enrichUnavail_char]
        have hc : enrichCrash tables p = false := by
          simp [enrichCrash, Bool.of_not_eq_true hic, hdp,
            Bool.of_not_eq_true hcr]
        rw [hc]
        simp [enrichResult, hdp]
    · rw [if_neg hdp, Option.some_bind, enrichUnavail_char]
      have hc : enrichCrash tables p = false := by
        simp [enrichCrash, Bool.of_not_eq_true hic,
          Bool.of_not_eq_true hdp]
      rw [hc]
      simp [enrichResult, hdp]

/-! ## Validator facts -/

lemma validate_inr_parse_none {α : Type} (val : α → String) (members : List α)
    (v : Option String) (s : String)
    (h : validateEnumOrStr val members v = some (Sum.inr s)) :
    parseBy val members s = none := by
  cases v with
  | none => cases h
  | some s0 =>
    simp only [validateEnumOrStr] at h
    by_cases h0 : s0 = ""
    · rw [if_pos h0] at h
      cases h
    · rw [if_neg h0] at h
      cases hp : parseBy val members s0 with
      | some m =>
        rw [hp] at h
        cases h
      | none =>
        rw [hp] at h
        cases h
        exact hp

/-- `current_status == CurrentStatus.LOAN_PLAYER` holds on a validated status
exactly when the member itself was stored: a preserved raw string can never
be the exact member value (it would have parsed). -/
lemma isLoanEq_validate (v : Option String) :
    isLoanEq (validateCurrentStatus v) = true ↔
      validateCurrentStatus v = some (Sum.inl CurrentStatus.LOAN_PLAYER) := by
  cases hv : validateCurrentStatus v with
  | none => simp [isLoanEq]
  | some x =>
    cases x with
    | inl m =>
      simp [isLoanEq]
    | inr s =>
      have hpn : parseBy CurrentStatus.value currentStatusMembers s = none :=
        validate_inr_parse_none _ _ _ _ hv
      simp only [isLoanEq, beq_iff_eq]
      constructor
      · intro h
        rw [h] at hpn
        have : parseBy CurrentStatus.value currentStatusMembers
            (CurrentStatus.LOAN_PLAYER.value) =
            some CurrentStatus.LOAN_PLAYER := by decide
        rw [this] at hpn
        cases hpn
      · intro h
        cases h

/-- `roster_designation == RosterDesignation.DP` on a validated designation
holds exactly when the member itself was stored. -/
lemma isDPEq_validate (v : Option String) :
    isDPEq (validateRosterDesignation v) = true ↔
      validateRosterDesignation v = some (Sum.inl RosterDesignation.DP) := by
  cases hv : validateRosterDesignation v with
  | none => simp [isDPEq]
  | some x =>
    cases x with
    | inl m =>
      simp [isDPEq]
    | inr s =>
      have hpn : parseBy RosterDesignation.value rosterDesignationMembers s =
          none := validate_inr_parse_none _ _ _ _ hv
      simp only [isDPEq, beq_iff_eq]
      constructor
      · intro h
        rw [h] at hpn
        have : parseBy RosterDesignation.value rosterDesignationMembers
            (RosterDesignation.DP.value) = some RosterDesignation.DP := by
          decide
        rw [this] at hpn
        cases hpn
      · intro h
        cases h

/-! ## Structure of constructed players -/

lemma mkPlayerFromRow_eq {title : String} {r : LargeTableRow} {p : Player}
    (h : mkPlayerFromRow title r = some p) :
    ∃ slot, parseRosterSlot title = some slot ∧
      p = { name := pyStrip r.player_name
            roster_slot := slot
            roster_designation := validateRosterDesignation r.roster_designation
            current_status := validateCurrentStatus r.current_status
            contract_through := r.contract_through.map pyStrip
            option_years := r.option_years.map pyStrip
            permanent_transfer_option :=
              some (pyStartsWith (pyStr r.option_years) "PT") } := by
  unfold mkPlayerFromRow at h
  cases hs : parseRosterSlot title with
  | none =>
    rw [hs] at h
    cases h
  | some slot =>
    rw [hs] at h
    cases h
    exact ⟨slot, rfl, rfl⟩

lemma applyWrite_self (w e : Option Bool) :
    applyWrite w (applyWrite w e) = applyWrite w e := by
  cases w <;> rfl

lemma enrichResult_idem (tables : List SmallTable) (p : Player) :
    enrichResult tables (enrichResult tables p) = enrichResult tables p := by
  cases p with
  | mk i n slot rd cs ct oy pto intl conv unav ex =>
    simp only [enrichResult]
    rw [Player.mk.injEq]
    refine ⟨rfl, rfl, rfl, rfl, rfl, rfl, rfl, ?_, ?_, ?_, ?_, ?_⟩
    · by_cases h : isLoanEq cs <;> simp [h]
    · rw [Bool.or_assoc, Bool.or_self]
    · by_cases h : isDPEq rd <;> simp [h]
    · rw [Bool.or_assoc, Bool.or_self]
    · exact applyWrite_self _ _

lemma enrichCrash_enrichResult (tables : List SmallTable) (p : Player) :
    enrichCrash tables (enrichResult tables p) = enrichCrash tables p := rfl

/-- C9: re-running the enrichment sequence on an already-enriched player is
a no-op — every field of the player is left unchanged. -/
theorem enrichment_idempotent (rp : RosterProfile) (t : LargeTable)
    (r : LargeTableRow) (p q : Player)
    (ht : t ∈ rp.large_tables) (hr : r ∈ t.rows)
    (hp : mkPlayerFromRow t.title r = some p)
    (hq : enrichPlayer rp.small_tables p = some q) :
    enrichPlayer rp.small_tables q = some q := by
  rw [enrichPlayer_char] at hq
  by_cases hc : enrichCrash rp.small_tables p
  · rw [if_pos hc] at hq
    cases hq
  · rw [if_neg hc] at hq
    have hq' : q = enrichResult rp.small_tables p := by
      cases hq
      rfl
    subst hq'
    rw [enrichPlayer_char, enrichCrash_enrichResult, if_neg hc,
      enrichResult_idem]

/-- The spec's example table: international slots `(7)` with the rows
"Alphonso Davies +" and "Other Guy". -/
def intlTable : SmallTable :=
  { title := "International Slots (7)"
    rows := [⟨some "Alphonso Davies +"⟩, ⟨some "Other Guy"⟩] }

/-- Witness data for C9 and C2: a profile with an international-slots table
listing "Alphonso Davies +" and "Other Guy". -/
def rpIntl : RosterProfile :=
  { team_name := "T"
    release_date := ⟨2025, 7, 7⟩
    small_tables := [intlTable]
    large_tables :=
      [{ title := "Senior Roster"
         rows := [{ player_name := "Alphonso Davies" },
                  { player_name := "Other Guy" }] }] }

def daviesStart : Player :=
  { name := "Alphonso Davies"
    roster_slot := .SENIOR
    permanent_transfer_option := some false }

def daviesDone : Player :=
  { name := "Alphonso Davies"
    roster_slot := .SENIOR
    permanent_transfer_option := none
    international_slot := true
    canadian_international_slot_exemption := some true }

/-- Witness for C9: enriching the already-enriched "Alphonso Davies" player
of `rpIntl` changes nothing. -/
theorem enrichment_idempotent_witness :
    enrichPlayer rpIntl.small_tables daviesDone = some daviesDone :=
  enrichment_idempotent rpIntl
    { title := "Senior Roster"
      rows := [{ player_name := "Alphonso Davies" },
               { player_name := "Other Guy" }] }
    { player_name := "Alphonso Davies" } daviesStart daviesDone
    (by decide) (by decide) (by decide) (by decide)

/-- C3: after enrichment, `permanent_transfer_option` is
`str(row.option_years).startswith("PT")` exactly when the player's status is
the `Loan Player` member, and `None` otherwise. -/
theorem pto_loan_only (rp : RosterProfile) (title : String)
    (r : LargeTableRow) (p q : Player)
    (hp : mkPlayerFromRow title r = some p)
    (hq : enrichPlayer rp.small_tables p = some q) :
    (q.current_status = some (Sum.inl CurrentStatus.LOAN_PLAYER) →
      q.permanent_transfer_option =
        some (pyStartsWith (pyStr r.option_years) "PT")) ∧
    (q.current_status ≠ some (Sum.inl CurrentStatus.LOAN_PLAYER) →
      q.permanent_transfer_option = none) := by
  obtain ⟨slot, hslot, hpe⟩ := mkPlayerFromRow_eq hp
  rw [enrichPlayer_char] at hq
  by_cases hc : enrichCrash rp.small_tables p
  · rw [if_pos hc] at hq
    cases hq
  · rw [if_neg hc] at hq
    have hq' : q = enrichResult rp.small_tables p := by
      cases hq
      rfl
    subst hq'
    have hcs : (enrichResult rp.small_tables p).current_status =
        p.current_status := rfl
    have hpto : (enrichResult rp.small_tables p).permanent_transfer_option =
        (if isLoanEq p.current_status then p.permanent_transfer_option
         else none) := rfl
    constructor
    · intro hl
      rw [hcs] at hl
      have hloan : isLoanEq p.current_status = true := by
        rw [hl]
        simp [isLoanEq]
      rw [hpto, if_pos hloan, hpe]
    · intro hl
      rw [hcs, hpe] at hl
      have hloan : isLoanEq p.current_status = false := by
        rw [hpe]
        cases hx : isLoanEq (validateCurrentStatus r.current_status) with
        | false => rfl
        | true => exact absurd ((isLoanEq_validate r.current_status).mp hx) hl
      rw [hpto, hloan]
      simp

/-- Witness for C3 at the spec's concrete inputs: `current_status = "Loan
Player"` with `option_years = "PT 2026"` keeps `permanent_transfer_option =
true`; the same row with `current_status = "Off-Budget"` resets it to
`None`. -/
theorem pto_loan_only_witness :
    ({ name := "X", roster_slot := .SENIOR,
       current_status := some (Sum.inl CurrentStatus.LOAN_PLAYER),
       option_years := some "PT 2026",
       permanent_transfer_option := some true } : Player).permanent_transfer_option =
      some (pyStartsWith (pyStr (some "PT 2026")) "PT") ∧
    ({ name := "X", roster_slot := .SENIOR,
       current_status := some (Sum.inl CurrentStatus.OFF_BUDGET),
       option_years := some "PT 2026",
       permanent_transfer_option := none } : Player).permanent_transfer_option =
      none := by
  constructor
  · exact (pto_loan_only
      { team_name := "T", release_date := ⟨2025, 7, 7⟩ } "Senior Roster"
      { player_name := "X", current_status := some "Loan Player",
        option_years := some "PT 2026" }
      { name := "X", roster_slot := .SENIOR,
        current_status := some (Sum.inl CurrentStatus.LOAN_PLAYER),
        option_years := some "PT 2026",
        permanent_transfer_option := some true }
      { name := "X", roster_slot := .SENIOR,
        current_status := some (Sum.inl CurrentStatus.LOAN_PLAYER),
        option_years := some "PT 2026",
        permanent_transfer_option := some true }
      (by decide) (by decide)).1 (by decide)
  · exact (pto_loan_only
      { team_name := "T", release_date := ⟨2025, 7, 7⟩ } "Senior Roster"
      { player_name := "X", current_status := some "Off-Budget",
        option_years := some "PT 2026" }
      { name := "X", roster_slot := .SENIOR,
        current_status := some (Sum.inl CurrentStatus.OFF_BUDGET),
        option_years := some "PT 2026",
        permanent_transfer_option := some true }
      { name := "X", roster_slot := .SENIOR,
        current_status := some (Sum.inl CurrentStatus.OFF_BUDGET),
        option_years := some "PT 2026",
        permanent_transfer_option := none }
      (by decide) (by decide)).2 (by decide)

/-! ## Decomposition of `_get_players` output -/

lemma buildRows_mem {tables : List SmallTable} {title : String}
    {rows : List LargeTableRow} {ps : List Player} {q : Player}
    (h : buildRows tables title rows = some ps) (hq : q ∈ ps) :
    ∃ r p, r ∈ rows ∧ mkPlayerFromRow title r = some p ∧
      enrichPlayer tables p = some q := by
  induction rows generalizing ps with
  | nil =>
    cases h
    cases hq
  | cons r rs ih =>
    rw [buildRows] at h
    cases hmk : mkPlayerFromRow title r with
    | none =>
      rw [hmk] at h
      cases h
    | some p =>
      rw [hmk, Option.some_bind] at h
      cases hen : enrichPlayer tables p with
      | none =>
        rw [hen] at h
        cases h
      | some q0 =>
        rw [hen, Option.some_bind] at h
        cases hbr : buildRows tables title rs with
        | none =>
          rw [hbr] at h
          cases h
        | some ps' =>
          rw [hbr, Option.map_some'] at h
          cases h
          rcases List.mem_cons.mp hq with hq0 | hqs
          · subst hq0
            exact ⟨r, p, List.mem_cons_self r rs, hmk, hen⟩
          · obtain ⟨r', p', hr', hmk', hen'⟩ := ih hbr hqs
            exact ⟨r', p', List.mem_cons_of_mem r hr', hmk', hen'⟩

lemma buildTables_mem {tables : List SmallTable} {lts : List LargeTable}
    {ps : List Player} {q : Player}
    (h : buildTables tables lts = some ps) (hq : q ∈ ps) :
    ∃ t r p, t ∈ lts ∧ r ∈ t.rows ∧ mkPlayerFromRow t.title r = some p ∧
      enrichPlayer tables p = some q := by
  induction lts generalizing ps with
  | nil =>
    cases h
    cases hq
  | cons t ts ih =>
    rw [buildTables] at h
    cases hbr : buildRows tables t.title t.rows with
    | none =>
      rw [hbr] at h
      cases h
    | some ps1 =>
      rw [hbr, Option.some_bind] at h
      cases hbt : buildTables tables ts with
      | none =>
        rw [hbt] at h
        cases h
      | some ps2 =>
        rw [hbt, Option.map_some'] at h
        cases h
        rcases List.mem_append.mp hq with hq1 | hq2
        · obtain ⟨r, p, hr, hmk, hen⟩ := buildRows_mem hbr hq1
          exact ⟨t, r, p, List.mem_cons_self t ts, hr, hmk, hen⟩
        · obtain ⟨t', r, p, ht', hr, hmk, hen⟩ := ih hbt hq2
          exact ⟨t', r, p, List.mem_cons_of_mem t ht', hr, hmk, hen⟩

/-- C10: for a player assembled and enriched by a roster profile,
`convertible_with_tam` is non-null iff `roster_designation` is the
`Designated Player` member; when non-null it is `true` unless some row of a
"designated"-prefixed small table both prefix-matches the player's name and
contains `"^"` (the condition computed by `dpCaretL`), in which case it is
`false`. -/
theorem convertible_with_tam_shape (rp : RosterProfile) (ps : List Player)
    (p : Player) (hps : getPlayers rp = some ps) (hp : p ∈ ps) :
    (¬p.convertible_with_tam = none ↔
      p.roster_designation = some (Sum.inl RosterDesignation.DP)) ∧
    (p.roster_designation = some (Sum.inl RosterDesignation.DP) →
      p.convertible_with_tam = some (!dpCaretL p.name rp.small_tables)) := by
  obtain ⟨t, r, p0, _, _, hmk, hen⟩ := buildTables_mem hps hp
  obtain ⟨slot, hslot, hpe⟩ := mkPlayerFromRow_eq hmk
  rw [enrichPlayer_char] at hen
  by_cases hc : enrichCrash rp.small_tables p0
  · rw [if_pos hc] at hen
    cases hen
  · rw [if_neg hc] at hen
    have hq' : p = enrichResult rp.small_tables p0 := by
      cases hen
      rfl
    subst hq'
    have hrd : (enrichResult rp.small_tables p0).roster_designation =
        p0.roster_designation := rfl
    have hname : (enrichResult rp.small_tables p0).name = p0.name := rfl
    have hconv : (enrichResult rp.small_tables p0).convertible_with_tam =
        (if isDPEq p0.roster_designation then
          some (!dpCaretL p0.name rp.small_tables)
         else p0.convertible_with_tam) := rfl
    have hconv0 : p0.convertible_with_tam = none := by
      rw [hpe]
    constructor
    · rw [hrd, hconv, hconv0]
      by_cases hdp : isDPEq p0.roster_designation
      · rw [if_pos hdp]
        have hd := (isDPEq_validate r.roster_designation).mp (by
          rw [hpe] at hdp
          exact hdp)
        rw [hpe]
        simp only [hd]
        constructor
        · intro _
          trivial
        · intro _
          exact fun h => Option.noConfusion h
      · rw [if_neg hdp]
        constructor
        · intro hne
          exact absurd rfl hne
        · intro hd
          exfalso
          apply hdp
          rw [hpe]
          apply (isDPEq_validate r.roster_designation).mpr
          rw [hpe] at hd
          exact hd
    · intro hd
      rw [hrd] at hd
      have hdp : isDPEq p0.roster_designation = true := by
        rw [hpe]
        apply (isDPEq_validate r.roster_designation).mpr
        rw [hpe] at hd
        exact hd
      rw [hconv, if_pos hdp, hname]

/-- Witness profile for C10: a Designated Player with a caret row. -/
def rpDP : RosterProfile :=
  { team_name := "T"
    release_date := ⟨2025, 7, 7⟩
    small_tables :=
      [{ title := "Designated Players", rows := [⟨some "Jane Doe ^"⟩] }]
    large_tables :=
      [{ title := "Senior Roster"
         rows := [{ player_name := "Jane Doe"
                    roster_designation := some "Designated Player" }] }] }

def janeDone : Player :=
  { name := "Jane Doe"
    roster_slot := .SENIOR
    roster_designation := some (Sum.inl RosterDesignation.DP)
    permanent_transfer_option := none
    convertible_with_tam := some false }

/-- Witness for C10: Jane Doe, a Designated Player with a matching `"^"`
row, ends with `convertible_with_tam = some false`. -/
theorem convertible_with_tam_shape_witness :
    janeDone.roster_designation = some (Sum.inl RosterDesignation.DP) ∧
    janeDone.convertible_with_tam =
      some (!dpCaretL janeDone.name rpDP.small_tables) :=
  ⟨rfl, (convertible_with_tam_shape rpDP [janeDone] janeDone
    (by decide) (by decide)).2 rfl⟩

/-! ## C1 — international slots on `to_team` -/

/-- A roster profile with no international-slots table. -/
def rpNoIntl : RosterProfile :=
  { team_name := "Empty FC", release_date := ⟨2025, 7, 7⟩ }

/-- Counterexample to C1 as stated: when no international table exists,
`to_team` does not produce a Team with a null `international_slots` — it
produces no Team at all, because `Team.international_slots` is a required
`int` field and pydantic rejects `None` for it. -/
theorem international_slots_counterexample :
    getInternationalSlots rpNoIntl.small_tables = none ∧
      toTeam rpNoIntl = none := by
  constructor
  · rfl
  · rfl

/-- C1 (amended): `to_team` sets `international_slots` to the first integer
found while scanning international-prefixed small-table titles (skipping
such tables whose titles hold no digit); when none is found, `Team`
validation fails and `to_team` raises instead of producing a Team. -/
theorem international_slots_amended (rp : RosterProfile) :
    (getInternationalSlots rp.small_tables = none → toTeam rp = none) ∧
    (∀ n t, getInternationalSlots rp.small_tables = some n →
      toTeam rp = some t → t.international_slots = (n : Int)) := by
  constructor
  · intro h
    unfold toTeam
    rw [h]
  · intro n t hn ht
    unfold toTeam at ht
    rw [hn] at ht
    cases hgp : getPlayers rp with
    | none =>
      rw [hgp] at ht
      cases ht
    | some ps =>
      rw [hgp] at ht
      cases ht
      rfl

/-- A roster profile whose international table advertises 7 slots. -/
def rpSeven : RosterProfile :=
  { team_name := "Seven FC"
    release_date := ⟨2025, 7, 7⟩
    small_tables := [{ title := "International Slots (7)" }] }

/-- Witness for C1 (amended): on `rpSeven`, `to_team` succeeds and carries
`international_slots = 7`. -/
theorem international_slots_amended_witness :
    ({ name := "Seven FC", international_slots := (7 : Int) } :
        Team).international_slots = ((7 : Nat) : Int) :=
  (international_slots_amended rpSeven).2 7
    { name := "Seven FC", international_slots := (7 : Int) }
    (by decide) (by decide)

/-! ## C4 — unrecognized enum values are preserved with a warning -/

/-- The `Player` built by `_get_players` from a row whose designation is an
unknown string `s`. -/
def enumMissPlayerRD (s : String) : Player :=
  { name := "P"
    roster_slot := .SENIOR
    roster_designation := some (Sum.inr s)
    permanent_transfer_option := some false }

/-- The `Player` built by `_get_players` from a row whose status is an
unknown string `s`. -/
def enumMissPlayerCS (s : String) : Player :=
  { name := "P"
    roster_slot := .SENIOR
    current_status := some (Sum.inr s)
    permanent_transfer_option := some false }

/-- The `Team` built by `to_team` from a profile carrying an unknown roster
construction model string `s`. -/
def enumMissTeam (s : String) : Team :=
  { name := "T"
    roster_construction_model := some (Sum.inr s)
    players := []
    international_slots := (7 : Int) }

/-- C4: a non-empty string outside the corresponding enumeration — each
field judged against its own enumeration, independently of the others — is
kept verbatim by the `roster_designation` / `current_status` /
`roster_construction_model` validator, that validator surfaces a warning,
and model construction still succeeds (`Player`, resp. `Team`, is built
with the raw string in the field). -/
theorem enum_miss_preserved (s : String) (h0 : s ≠ "") :
    (parseRosterDesignation s = none →
      validateRosterDesignation (some s) = some (Sum.inr s) ∧
      validateEnumWarns RosterDesignation.value rosterDesignationMembers
        (some s) = true ∧
      (∃ p, mkPlayerFromRow "Senior Roster"
          { player_name := "P", roster_designation := some s } = some p ∧
        p.roster_designation = some (Sum.inr s))) ∧
    (parseCurrentStatus s = none →
      validateCurrentStatus (some s) = some (Sum.inr s) ∧
      validateEnumWarns CurrentStatus.value currentStatusMembers
        (some s) = true ∧
      (∃ p, mkPlayerFromRow "Senior Roster"
          { player_name := "P", current_status := some s } = some p ∧
        p.current_status = some (Sum.inr s))) ∧
    (parseRosterConstructionModel s = none →
      validateRosterConstructionModel (some s) = some (Sum.inr s) ∧
      validateEnumWarns RosterConstructionModel.value
        rosterConstructionModelMembers (some s) = true ∧
      (∃ t, toTeam
          { team_name := "T", release_date := ⟨2025, 1, 1⟩,
            roster_construction_model := some s,
            small_tables := [{ title := "International Slots (7)" }] } =
            some t ∧
        t.roster_construction_model = some (Sum.inr s))) := by
  refine ⟨?_, ?_, ?_⟩
  · intro h1
    have hv1 : validateRosterDesignation (some s) = some (Sum.inr s) := by
      simp only [validateRosterDesignation, validateEnumOrStr, if_neg h0]
      rw [show parseBy RosterDesignation.value rosterDesignationMembers s =
        none from h1]
    refine ⟨hv1, ?_, ?_⟩
    · simp only [validateEnumWarns, Bool.and_eq_true, decide_eq_true_eq,
        Option.isNone_iff_eq_none]
      exact ⟨h0, h1⟩
    · refine ⟨enumMissPlayerRD s, ?_, rfl⟩
      unfold mkPlayerFromRow enumMissPlayerRD
      rw [show parseRosterSlot "Senior Roster" = some RosterSlot.SENIOR from
        by decide]
      rw [show validateRosterDesignation (some s) = some (Sum.inr s)
        from hv1]
      rfl
  · intro h2
    have hv2 : validateCurrentStatus (some s) = some (Sum.inr s) := by
      simp only [validateCurrentStatus, validateEnumOrStr, if_neg h0]
      rw [show parseBy CurrentStatus.value currentStatusMembers s =
        none from h2]
    refine ⟨hv2, ?_, ?_⟩
    · simp only [validateEnumWarns, Bool.and_eq_true, decide_eq_true_eq,
        Option.isNone_iff_eq_none]
      exact ⟨h0, h2⟩
    · refine ⟨enumMissPlayerCS s, ?_, rfl⟩
      unfold mkPlayerFromRow enumMissPlayerCS
      rw [show parseRosterSlot "Senior Roster" = some RosterSlot.SENIOR from
        by decide]
      rw [show validateCurrentStatus (some s) = some (Sum.inr s) from hv2]
      rfl
  · intro h3
    have hv3 : validateRosterConstructionModel (some s) =
        some (Sum.inr s) := by
      simp only [validateRosterConstructionModel, validateEnumOrStr,
        if_neg h0]
      rw [show parseBy RosterConstructionModel.value
        rosterConstructionModelMembers s = none from h3]
    refine ⟨hv3, ?_, ?_⟩
    · simp only [validateEnumWarns, Bool.and_eq_true, decide_eq_true_eq,
        Option.isNone_iff_eq_none]
      exact ⟨h0, h3⟩
    · refine ⟨enumMissTeam s, ?_, rfl⟩
      unfold toTeam enumMissTeam
      rw [show getInternationalSlots
        [({ title := "International Slots (7)" } : SmallTable)] =
          some 7 from by decide]
      rw [show (getPlayers
        { team_name := "T", release_date := ⟨2025, 1, 1⟩,
          roster_construction_model := some s,
          small_tables := [{ title := "International Slots (7)" }] }) =
            some [] from rfl]
      rw [show validateRosterConstructionModel (some s) = some (Sum.inr s)
        from hv3]
      rfl

/-- Witness for C4 at per-field inputs: `"Loan Player"` (a CurrentStatus
member, so outside RosterDesignation only) assigned to
`roster_designation`, and `"TAM Player"` (a RosterDesignation member, so
outside CurrentStatus only) assigned to `current_status`; each is
preserved verbatim by its own field's validator. -/
theorem enum_miss_preserved_witness :
    validateRosterDesignation (some "Loan Player") =
      some (Sum.inr "Loan Player") ∧
    validateCurrentStatus (some "TAM Player") =
      some (Sum.inr "TAM Player") :=
  ⟨((enum_miss_preserved "Loan Player" (by decide)).1 (by decide)).1,
   ((enum_miss_preserved "TAM Player" (by decide)).2.1 (by decide)).1⟩

/-! ## C2 — international-slots enrichment -/

lemma orElse_none (a : Option Bool) : (a.orElse fun _ => none) = a := by
  cases a <;> rfl

lemma no_intl_effects (name : String) (ts : List SmallTable)
    (h : ts.filter titleStartsIntl = []) :
    intlCrashL name ts = false ∧ intlMatchedL name ts = false ∧
      intlExWriteL name ts = none := by
  induction ts with
  | nil => exact ⟨rfl, rfl, rfl⟩
  | cons t ts ih =>
    rw [List.filter_cons] at h
    by_cases ht : titleStartsIntl t
    · rw [if_pos ht] at h
      cases h
    · rw [if_neg ht] at h
      obtain ⟨h1, h2, h3⟩ := ih h
      have hf : titleStartsIntl t = false := Bool.of_not_eq_true ht
      refine ⟨?_, ?_, ?_⟩
      · simp only [intlCrashL, List.any_cons, tableIntlCrash, hf,
          Bool.false_and, Bool.false_or]
        exact h1
      · simp only [intlMatchedL, List.any_cons, tableIntlMatched, hf,
          Bool.false_and, Bool.false_or]
        exact h2
      · rw [intlExWriteL, h3]
        simp only [tableExWrite, hf, Bool.false_eq_true, if_false]
        rfl

lemma single_intl_effects (name : String) (ts : List SmallTable)
    (T : SmallTable) (h : ts.filter titleStartsIntl = [T]) :
    intlCrashL name ts = tableIntlCrash name T ∧
      intlMatchedL name ts = tableIntlMatched name T ∧
      intlExWriteL name ts = tableExWrite name T := by
  induction ts with
  | nil => cases h
  | cons t ts ih =>
    rw [List.filter_cons] at h
    by_cases ht : titleStartsIntl t
    · rw [if_pos ht] at h
      injection h with hT hnil
      subst hT
      obtain ⟨h1, h2, h3⟩ := no_intl_effects name ts hnil
      refine ⟨?_, ?_, ?_⟩
      · simp only [intlCrashL, List.any_cons] at h1 ⊢
        rw [h1, Bool.or_false]
      · simp only [intlMatchedL, List.any_cons] at h2 ⊢
        rw [h2, Bool.or_false]
      · rw [intlExWriteL, h3]
        rfl
    · rw [if_neg ht] at h
      obtain ⟨h1, h2, h3⟩ := ih h
      have hf : titleStartsIntl t = false := Bool.of_not_eq_true ht
      refine ⟨?_, ?_, ?_⟩
      · simp only [intlCrashL, List.any_cons, tableIntlCrash, hf,
          Bool.false_and, Bool.false_or] at h1 ⊢
        exact h1
      · simp only [intlMatchedL, List.any_cons, tableIntlMatched, hf,
          Bool.false_and, Bool.false_or] at h2 ⊢
        exact h2
      · have hnone : tableExWrite name t = none := by
          simp [tableExWrite, hf]
        rw [intlExWriteL]
        simp only [hnone]
        rw [orElse_none]
        exact h3

/-- The "Alphonso Davies" player of `rpIntl` before enrichment. -/
def otherStart : Player :=
  { name := "Other Guy"
    roster_slot := .SENIOR
    permanent_transfer_option := some false }

/-- "Other Guy" after the full enrichment of `rpIntl`: he occupies an
international slot (his name prefix-matches the row "Other Guy") and his
exemption is `false`. -/
def otherDone : Player :=
  { name := "Other Guy"
    roster_slot := .SENIOR
    permanent_transfer_option := none
    international_slot := true
    canadian_international_slot_exemption := some false }

/-- "Other Guy" after the international pass alone. -/
def otherAfterIntl : Player :=
  { name := "Other Guy"
    roster_slot := .SENIOR
    permanent_transfer_option := some false
    international_slot := true
    canadian_international_slot_exemption := some false }

/-- Counterexample to C2 as stated: in the spec's scenario, the player named
"Other Guy" ends with `international_slot = true` (his name is a
case-insensitive prefix of the row "Other Guy"), not `false` as the claim
asserts. -/
theorem intl_enrichment_counterexample :
    getPlayers rpIntl = some [daviesDone, otherDone] ∧
      otherDone.international_slot = true := by
  exact ⟨by decide, rfl⟩

/-- C2 (amended): in a profile whose small tables contain exactly one
international-prefixed table `T`, a successfully enriched player has
`international_slot` turned on exactly when some row of `T` prefix-matches
his name; if any row of `T` contains `"+"`, his exemption ends `some true`
when the first matching row carries `"+"` and `some false` otherwise
(including when no row matches); without any `"+"` row, the exemption is
only upgraded to `some true` by a matching `"+"` row. In the spec's
concrete scenario, "Alphonso Davies" ends with `international_slot = true`
and exemption `true`, the team advertises 7 slots, and "Other Guy" ends
with `international_slot = true` (not `false`) and exemption `false`. -/
theorem intl_enrichment_amended (tables : List SmallTable) (T : SmallTable)
    (p q : Player) (hT : tables.filter titleStartsIntl = [T])
    (h : enrichFromInternationalSlots tables p = some q) :
    (q.international_slot =
      (p.international_slot || (firstMatchRow p.name T.rows).isSome)) ∧
    (T.rows.any rowHasPlusStr = true →
      q.canadian_international_slot_exemption =
        (match firstMatchRow p.name T.rows with
         | some r =>
           if pyContainsChar (pyStr r.player_name) '+' then some true
           else some false
         | none => some false)) ∧
    (T.rows.any rowHasPlusStr = false →
      q.canadian_international_slot_exemption =
        (match firstMatchRow p.name T.rows with
         | some r =>
           if pyContainsChar (pyStr r.player_name) '+' then some true
           else p.canadian_international_slot_exemption
         | none => p.canadian_international_slot_exemption)) ∧
    (getInternationalSlots rpIntl.small_tables = some 7 ∧
     getPlayers rpIntl = some [daviesDone, otherDone] ∧
     daviesDone.international_slot = true ∧
     daviesDone.canadian_international_slot_exemption = some true ∧
     otherDone.international_slot = true ∧
     otherDone.canadian_international_slot_exemption = some false) := by
  obtain ⟨hc, hm, hw⟩ := single_intl_effects p.name tables T hT
  have hTmem : T ∈ tables.filter titleStartsIntl := by
    rw [hT]
    exact List.mem_singleton.mpr rfl
  have hTintl : titleStartsIntl T = true := (List.mem_filter.mp hTmem).2
  rw [enrichIntl_char, hc] at h
  by_cases hcr : tableIntlCrash p.name T
  · rw [if_pos hcr] at h
    cases h
  · rw [if_neg hcr] at h
    have hqi : q.international_slot =
        (p.international_slot || intlMatchedL p.name tables) := by
      cases h
      rfl
    have hqe : q.canadian_international_slot_exemption =
        applyWrite (intlExWriteL p.name tables)
          p.canadian_international_slot_exemption := by
      cases h
      rfl
    refine ⟨?_, ?_, ?_, by decide, by decide, rfl, rfl, rfl, rfl⟩
    · rw [hqi, hm, tableIntlMatched, hTintl, Bool.true_and]
    · intro hplus
      rw [hqe, hw]
      cases hfm : firstMatchRow p.name T.rows with
      | none =>
        simp [tableExWrite, hTintl, hfm, hplus, applyWrite]
      | some r =>
        cases hpn : r.player_name with
        | none =>
          exfalso
          apply hcr
          simp [tableIntlCrash, hTintl, hfm, hpn]
        | some s =>
          by_cases hps : pyContainsChar s '+'
          · simp [tableExWrite, hTintl, hfm, hpn, hplus, hps, applyWrite,
              pyStr]
          · simp [tableExWrite, hTintl, hfm, hpn, hplus, hps, applyWrite,
              pyStr]
    · intro hplus
      rw [hqe, hw]
      cases hfm : firstMatchRow p.name T.rows with
      | none =>
        simp [tableExWrite, hTintl, hfm, hplus, applyWrite]
      | some r =>
        cases hpn : r.player_name with
        | none =>
          exfalso
          apply hcr
          simp [tableIntlCrash, hTintl, hfm, hpn]
        | some s =>
          by_cases hps : pyContainsChar s '+'
          · simp [tableExWrite, hTintl, hfm, hpn, hplus, hps, applyWrite,
              pyStr]
          · simp [tableExWrite, hTintl, hfm, hpn, hplus, hps, applyWrite,
              pyStr]

/-- Witness for C2 (amended) at the spec's concrete inputs: enriching
"Other Guy" against `rpIntl`'s single international table turns his
`international_slot` on because the row "Other Guy" matches his name. -/
theorem intl_enrichment_amended_witness :
    otherAfterIntl.international_slot =
      (otherStart.international_slot ||
        (firstMatchRow otherStart.name intlTable.rows).isSome) :=
  (intl_enrichment_amended [intlTable] intlTable otherStart otherAfterIntl
    (by decide) (by decide)).1

/-! ## `__init__.py` — pre-parse hyphen-continuation cleanup (C8)

`RosterProfileRelease._postprocess_text` is
`re.sub(rf"-{ATTRIBUTES_OPEN}.*{ATTRIBUTES_CLOSE}\n", "", text)` with
`ATTRIBUTES_OPEN = "《"`, `ATTRIBUTES_CLOSE = "》"` and `.` not matching
newlines: a match runs from `-《` to the first following newline, which must
be immediately preceded by `》`; `re.sub` removes the leftmost match and
continues scanning after it. -/

/-- Match the regex tail `.*》\n` (greedy, `.` excludes `\n`): succeeds iff
the first newline is immediately preceded by `》`; returns the text after
that newline. -/
def matchTail : List Char → Option (List Char)
  | [] => none
  | [_] => none
  | c1 :: c2 :: rest =>
    if c1 = '》' ∧ c2 = '\n' then some rest
    else if c1 = '\n' then none
    else matchTail (c2 :: rest)

/-- Match the full pattern `-《.*》\n` at the head of the text. -/
def matchHyphenLine : List Char → Option (List Char)
  | a :: b :: rest => if a = '-' ∧ b = '《' then matchTail rest else none
  | _ => none

lemma matchTail_length :
    ∀ l rest, matchTail l = some rest → rest.length < l.length := by
  intro l
  induction l with
  | nil => intro rest h; cases h
  | cons c1 l1 ih =>
    intro rest h
    cases l1 with
    | nil => cases h
    | cons c2 l2 =>
      rw [matchTail] at h
      by_cases h1 : c1 = '》' ∧ c2 = '\n'
      · rw [if_pos h1] at h
        cases h
        simp only [List.length_cons]
        omega
      · rw [if_neg h1] at h
        by_cases h2 : c1 = '\n'
        · rw [if_pos h2] at h
          cases h
        · rw [if_neg h2] at h
          have := ih rest h
          simp only [List.length_cons] at this ⊢
          omega

lemma matchHyphenLine_length (l rest : List Char)
    (h : matchHyphenLine l = some rest) : rest.length < l.length := by
  cases l with
  | nil => cases h
  | cons a l1 =>
    cases l1 with
    | nil => cases h
    | cons b l2 =>
      rw [matchHyphenLine] at h
      by_cases hab : a = '-' ∧ b = '《'
      · rw [if_pos hab] at h
        have := matchTail_length l2 rest h
        simp only [List.length_cons]
        omega
      · rw [if_neg hab] at h
        cases h

/-- One `re.sub` pass with explicit fuel (any fuel at least the length of
the text gives the fixpoint of the recursion). -/
def cleanupFuel : Nat → List Char → List Char
  | 0, l => l
  | _ + 1, [] => []
  | n + 1, c :: cs =>
    match matchHyphenLine (c :: cs) with
    | some rest => cleanupFuel n rest
    | none => c :: cleanupFuel n cs

/-- `RosterProfileRelease._postprocess_text`: remove every (leftmost,
non-overlapping) match of `-《.*》\n`. -/
def cleanupText (l : List Char) : List Char := cleanupFuel l.length l

lemma cleanupFuel_congr :
    ∀ n m l, l.length ≤ n → l.length ≤ m →
      cleanupFuel n l = cleanupFuel m l := by
  intro n
  induction n with
  | zero =>
    intro m l hn _
    have hl : l = [] := List.eq_nil_of_length_eq_zero (Nat.le_zero.mp hn)
    subst hl
    cases m <;> rfl
  | succ n ih =>
    intro m l hn hm
    cases l with
    | nil => cases m <;> rfl
    | cons c cs =>
      cases m with
      | zero => simp at hm
      | succ m =>
        rw [cleanupFuel, cleanupFuel]
        cases hmt : matchHyphenLine (c :: cs) with
        | some rest =>
          have hlt := matchHyphenLine_length _ _ hmt
          simp only [List.length_cons] at hn hm hlt
          exact ih m rest (by omega) (by omega)
        | none =>
          simp only [List.length_cons] at hn hm
          rw [ih m cs (by omega) (by omega)]

lemma cleanupText_cons (c : Char) (cs : List Char) :
    cleanupText (c :: cs) =
      (match matchHyphenLine (c :: cs) with
       | some rest => cleanupText rest
       | none => c :: cleanupText cs) := by
  show cleanupFuel (c :: cs).length (c :: cs) = _
  rw [List.length_cons, cleanupFuel]
  cases hmt : matchHyphenLine (c :: cs) with
  | some rest =>
    have hlt := matchHyphenLine_length _ _ hmt
    simp only [List.length_cons] at hlt
    exact cleanupFuel_congr cs.length rest.length rest (by omega)
      (le_refl _)
  | none => rfl

/-- No position of the text starts a match of the cleanup pattern. -/
def noHyphenMatch : List Char → Bool
  | [] => true
  | c :: cs => (matchHyphenLine (c :: cs)).isNone && noHyphenMatch cs

lemma cleanupText_of_noMatch (l : List Char)
    (h : noHyphenMatch l = true) : cleanupText l = l := by
  induction l with
  | nil => rfl
  | cons c cs ih =>
    rw [noHyphenMatch, Bool.and_eq_true] at h
    rw [cleanupText_cons]
    cases hmt : matchHyphenLine (c :: cs) with
    | some rest =>
      rw [hmt] at h
      cases h.1
    | none =>
      rw [ih h.2]

lemma cleanupText_length_le (l : List Char) :
    (cleanupText l).length ≤ l.length := by
  have H : ∀ n l, l.length ≤ n → (cleanupText l).length ≤ l.length := by
    intro n
    induction n with
    | zero =>
      intro l hl
      have : l = [] := List.eq_nil_of_length_eq_zero (Nat.le_zero.mp hl)
      subst this
      exact le_refl _
    | succ n ih =>
      intro l hl
      cases l with
      | nil => exact le_refl _
      | cons c cs =>
        rw [cleanupText_cons]
        cases hmt : matchHyphenLine (c :: cs) with
        | some rest =>
          have hlt := matchHyphenLine_length _ _ hmt
          simp only [List.length_cons] at hl hlt ⊢
          have h1 := ih rest (by omega)
          omega
        | none =>
          simp only [List.length_cons] at hl ⊢
          have h1 := ih cs (by omega)
          omega
  exact H l.length l (le_refl _)

lemma cleanupText_lt_of_match (l : List Char)
    (h : noHyphenMatch l = false) : (cleanupText l).length < l.length := by
  have H : ∀ n l, l.length ≤ n → noHyphenMatch l = false →
      (cleanupText l).length < l.length := by
    intro n
    induction n with
    | zero =>
      intro l hl hm
      have : l = [] := List.eq_nil_of_length_eq_zero (Nat.le_zero.mp hl)
      subst this
      cases hm
    | succ n ih =>
      intro l hl hm
      cases l with
      | nil => cases hm
      | cons c cs =>
        rw [cleanupText_cons]
        cases hmt : matchHyphenLine (c :: cs) with
        | some rest =>
          have hlt := matchHyphenLine_length _ _ hmt
          have h1 := cleanupText_length_le rest
          simp only [List.length_cons] at hlt ⊢
          omega
        | none =>
          have hm' : noHyphenMatch cs = false := by
            rw [noHyphenMatch, hmt] at hm
            simpa using hm
          show (c :: cleanupText cs).length < (c :: cs).length
          simp only [List.length_cons] at hl ⊢
          have h1 := ih cs (by omega) hm'
          omega
  exact H l.length l (le_refl _) h

/-- C8 (amended): the cleanup is idempotent at a text exactly when one
application leaves no residual match of the pattern; in general a second
application can remove further lines, because a removal can bring a
preceding `-` together with a following `《…》` line and create a new
match. -/
theorem cleanup_idempotent_iff (l : List Char) :
    cleanupText (cleanupText l) = cleanupText l ↔
      noHyphenMatch (cleanupText l) = true := by
  constructor
  · intro h
    cases hx : noHyphenMatch (cleanupText l) with
    | true => rfl
    | false =>
      exfalso
      have := cleanupText_lt_of_match (cleanupText l) hx
      rw [h] at this
      exact Nat.lt_irrefl _ this
  · exact cleanupText_of_noMatch (cleanupText l)

/-- The counterexample text `"A--《x》\n《y》\n"`. -/
def hyphenCexText : List Char := "A--《x》\n《y》\n".data

/-- Counterexample to C8 as stated: one cleanup pass of
`"A--《x》\n《y》\n"` yields `"A-《y》\n"`, whose fresh `-《…》` line a second
pass removes as well, so applying the cleanup twice differs from applying
it once. -/
theorem cleanup_idempotent_counterexample :
    cleanupText hyphenCexText = "A-《y》\n".data ∧
      cleanupText (cleanupText hyphenCexText) = "A".data ∧
      cleanupText (cleanupText hyphenCexText) ≠ cleanupText hyphenCexText
    := by
  refine ⟨by decide, by decide, by decide⟩

/-! ## `pypdf/models.py` and `pypdf/reader.py` — page text extraction

Translation choices: PDF numbers are rationals; a resolved font (the
dictionary lookup of `Font.from_operands` is host-library work) carries the
`ToUnicode` character table and the width table that `Font.decode` reads;
byte strings are lists of character codes; a missing font or a code outside
the tables makes the operation raise, i.e. return `none`. -/

def RETURN_G : Char := '↩'
def TAB_G : Char := '⇥'
def PRECEDES_G : Char := '⇤'

/-- Python `abs` on rationals. -/
def ratAbs (q : ℚ) : ℚ := if q < 0 then -q else q

/-- Python `math.ceil` on rationals. -/
def ratCeil (q : ℚ) : Int := -((-q).num.fdiv ((-q).den : Int))

structure PdfFont where
  name : String
  size : ℚ
  characters : List (Nat × String) := []
  widths : List (Nat × Int) := []
  deriving DecidableEq, Repr

/-- `Font.decode`: map each code through `characters` and sum `widths`;
a missing code raises `KeyError`. -/
def decodeBytes (f : PdfFont) : List Nat → Option (List Char × Int)
  | [] => some ([], 0)
  | b :: bs =>
    match List.lookup b f.characters, List.lookup b f.widths with
    | some g, some w =>
      match decodeBytes f bs with
      | none => none
      | some (c, tw) => some (g.data ++ c, w + tw)
    | _, _ => none

structure BBox where
  x_min : Int := 0
  y_min : Int := 0
  width : Int := 0
  height : Int := 0
  deriving DecidableEq, Repr

structure TextObj where
  content : List Char := []
  font : Option PdfFont := none
  bounding_box : Option BBox := none
  deriving DecidableEq, Repr

/-- A 2-D affine matrix `[a b c d e f]` as pypdf hands it to the visitor. -/
structure Mat6 where
  a : ℚ
  b : ℚ
  c : ℚ
  d : ℚ
  e : ℚ
  f : ℚ
  deriving DecidableEq, Repr

/-- Translation row of `tm · cm` (the reshaped 3×3 product computed in
`Page._set_origin`). -/
def originOf (tm cm : Mat6) : ℚ × ℚ :=
  (tm.e * cm.a + tm.f * cm.c + cm.e, tm.e * cm.b + tm.f * cm.d + cm.f)

structure ExtState where
  text_objects : List TextObj := []
  text_object : TextObj := {}
  font : Option PdfFont := none
  font_stack : List (Option PdfFont) := []
  x_displacement : ℚ := 0
  td_x_translation : ℚ := 0
  td_y_translation : ℚ := 0
  deriving DecidableEq, Repr

def initExtState : ExtState := {}

/-- `content[:-1]` applied when the content ends with `RETURN`. -/
def stripOneReturn (l : List Char) : List Char :=
  if l.getLast? = some RETURN_G then l.dropLast else l

/-- `Page._end_text_object`: with truthy content, drop one trailing
`RETURN`, strip whitespace, attach the current font and append; always
reset the partial object and `x_displacement`. -/
def endTextObject (st : ExtState) : ExtState :=
  if st.text_object.content ≠ [] then
    { st with
      text_objects := st.text_objects ++
        [{ st.text_object with
            content := pyStripList (stripOneReturn st.text_object.content)
            font := st.font }]
      text_object := {}
      x_displacement := 0 }
  else { st with text_object := {}, x_displacement := 0 }

/-- `Page._save_graphics_state` (`q`). -/
def saveGraphicsState (st : ExtState) : ExtState :=
  { st with font_stack := st.font :: st.font_stack }

/-- `Page._restore_graphics_state` (`Q`); `list.pop()` on an empty stack
raises `IndexError`. -/
def restoreGraphicsState (st : ExtState) : Option ExtState :=
  let st1 := endTextObject st
  match st1.font_stack with
  | [] => none
  | f :: rest => some { st1 with font := f, font_stack := rest }

def xThreshold : ℚ := 3 / 10
def yThreshold : ℚ := 1

/-- `Page._move_text_position` (`Td`) with the default thresholds; the
`tx > 0` branch reads `self._font.size` and so raises when no font was
set. -/
def moveTextPosition (st : ExtState) (tx ty : ℚ) : Option ExtState :=
  if ty < 0 ∧ ratAbs (tx + st.td_x_translation) < xThreshold then
    some { st with
      text_object := { st.text_object with
        content := st.text_object.content ++ [RETURN_G] }
      td_x_translation := 0
      td_y_translation := st.td_y_translation + ty
      x_displacement := 0 }
  else if ty > 0 ∧ ratAbs (ty + st.td_y_translation) < yThreshold then
    some { st with
      text_object := { st.text_object with
        content := st.text_object.content ++
          [if tx < 0 then PRECEDES_G else TAB_G] }
      td_x_translation := 0
      td_y_translation := 0
      x_displacement := 0 }
  else if ratAbs ty ≥ yThreshold then
    some { endTextObject st with x_displacement := 0 }
  else if tx < 0 ∧ st.text_object.content ≠ [] then
    some { st with
      text_object := { st.text_object with
        content := st.text_object.content ++ [PRECEDES_G] }
      x_displacement := 0 }
  else if tx > 0 ∧ st.text_object.content ≠ [] then
    match st.font with
    | none => none
    | some f =>
      if tx - st.x_displacement > xThreshold * f.size then
        some { st with
          text_object := { st.text_object with
            content := st.text_object.content ++ [TAB_G] }
          x_displacement := 0 }
      else
        some { st with
          td_x_translation := st.td_x_translation + tx
          x_displacement := 0 }
  else some { st with x_displacement := 0 }

/-- `Page._set_font` (`Tf`) with the already-resolved font. -/
def setFontState (st : ExtState) (f : PdfFont) : ExtState :=
  { endTextObject st with font := some f }

/-- `Page._set_origin`: fix the bounding-box origin (integer ceiling) the
first time text is shown in the object. -/
def setOrigin (st : ExtState) (cm tm : Mat6) : ExtState :=
  match st.text_object.bounding_box with
  | some _ => st
  | none =>
    { st with
      text_object := { st.text_object with
        bounding_box := some
          { x_min := ratCeil (originOf tm cm).1, y_min := ratCeil (originOf tm cm).2 } } }

/-- `Page._handle_text_string`: decode, append, advance `x_displacement`
and grow the bounding-box width (`max`, then the integer-ceiling
validator). -/
def handleTextString (st : ExtState) (bs : List Nat) : Option ExtState :=
  match st.font with
  | none => none
  | some f =>
    match decodeBytes f bs with
    | none => none
    | some (content, width) =>
      let xd := st.x_displacement + (width : ℚ) / 1000 * f.size
      match st.text_object.bounding_box with
      | none => none
      | some bb =>
        some { st with
          text_object := { st.text_object with
            content := st.text_object.content ++ content
            bounding_box := some { bb with
              width := if (bb.width : ℚ) < xd then ratCeil xd else bb.width } }
          x_displacement := xd }

/-- `Page._show_text_string` (`Tj`). -/
def showTextString (st : ExtState) (bs : List Nat) (cm tm : Mat6) :
    Option ExtState :=
  handleTextString (setOrigin st cm tm) bs

/-- The numeric element of a `TJ` array: advance `x_displacement` by
`n/1000 · size` and grow the width. -/
def tjNumber (st : ExtState) (n : ℚ) : Option ExtState :=
  match st.font with
  | none => none
  | some f =>
    let xd := st.x_displacement + n / 1000 * f.size
    match st.text_object.bounding_box with
    | none => none
    | some bb =>
      some { st with
        text_object := { st.text_object with
          bounding_box := some { bb with
            width := if (bb.width : ℚ) < xd then ratCeil xd else bb.width } }
        x_displacement := xd }

def tjLoop : ExtState → List (List Nat ⊕ ℚ) → Option ExtState
  | st, [] => some st
  | st, Sum.inl bs :: items =>
    (handleTextString st bs).bind (fun s => tjLoop s items)
  | st, Sum.inr n :: items =>
    (tjNumber st n).bind (fun s => tjLoop s items)

/-- `Page._show_text_strings` (`TJ`). -/
def showTextStrings (st : ExtState) (items : List (List Nat ⊕ ℚ))
    (cm tm : Mat6) : Option ExtState :=
  tjLoop (setOrigin st cm tm) items

/-- One operator observed by `visitor_operand_before`. -/
inductive PdfOp where
  | endText
  | save
  | restore
  | moveText (tx ty : ℚ)
  | setFontOp (f : PdfFont)
  | showText (bs : List Nat) (cm tm : Mat6)
  | showTexts (items : List (List Nat ⊕ ℚ)) (cm tm : Mat6)
  deriving DecidableEq, Repr

def stepOp (st : ExtState) : PdfOp → Option ExtState
  | .endText => some (endTextObject st)
  | .save => some (saveGraphicsState st)
  | .restore => restoreGraphicsState st
  | .moveText tx ty => moveTextPosition st tx ty
  | .setFontOp f => some (setFontState st f)
  | .showText bs cm tm => showTextString st bs cm tm
  | .showTexts items cm tm => showTextStrings st items cm tm

def runOps : List PdfOp → ExtState → Option ExtState
  | [], st => some st
  | op :: ops, st => (stepOp st op).bind (runOps ops)

/-- Python `pat in s` (substring containment) on character lists. -/
def listContainsSub (pat : List Char) : List Char → Bool
  | [] => pat.isPrefixOf []
  | c :: tl => pat.isPrefixOf (c :: tl) || listContainsSub pat tl

/-- `FontWeight` inference from the font name. -/
def fontWeightOf (f : PdfFont) : String :=
  if listContainsSub ("bold".data) ((pyLower f.name).data) then "bold"
  else if listContainsSub ("light".data) ((pyLower f.name).data) then "light"
  else "regular"

/-- `TextObject.serialize`: content, then
`《x_min|x_center|x_max|weight》` and the end-of-object newline; raises
when font or bounding box is unset. -/
def serializeTextObj (o : TextObj) : Option (List Char) :=
  match o.font, o.bounding_box with
  | some f, some bb =>
    some (o.content ++ ['《'] ++
      (String.intercalate "|"
        [toString bb.x_min,
         toString (bb.x_min + ratCeil ((bb.width : ℚ) / 2)),
         toString (bb.x_min + bb.width),
         fontWeightOf f]).data ++ ['》', '\n'])
  | _, _ => none

/-! ### C7 — the wrapped-line `Td` branch -/

/-- C7: a `Td` with `ty < 0` and `|tx + td_x_translation| < x_threshold`
appends `RETURN` to the current content, resets `td_x_translation` to 0,
accumulates `td_y_translation += ty`; and, as after every completed `Td`,
`x_displacement` ends 0. -/
theorem td_wrapped_line (st : ExtState) (tx ty : ℚ)
    (h1 : ty < 0) (h2 : ratAbs (tx + st.td_x_translation) < xThreshold) :
    (moveTextPosition st tx ty = some { st with
      text_object := { st.text_object with
        content := st.text_object.content ++ [RETURN_G] }
      td_x_translation := 0
      td_y_translation := st.td_y_translation + ty
      x_displacement := 0 }) ∧
    (∀ (st1 : ExtState) (tx1 ty1 : ℚ) (st2 : ExtState),
      moveTextPosition st1 tx1 ty1 = some st2 → st2.x_displacement = 0) := by
  constructor
  · rw [moveTextPosition, if_pos ⟨h1, h2⟩]
  · intro st1 tx1 ty1 st2 h
    rw [moveTextPosition] at h
    by_cases c1 : ty1 < 0 ∧ ratAbs (tx1 + st1.td_x_translation) < xThreshold
    · rw [if_pos c1] at h
      cases h
      rfl
    · rw [if_neg c1] at h
      by_cases c2 : ty1 > 0 ∧ ratAbs (ty1 + st1.td_y_translation) < yThreshold
      · rw [if_pos c2] at h
        cases h
        rfl
      · rw [if_neg c2] at h
        by_cases c3 : ratAbs ty1 ≥ yThreshold
        · rw [if_pos c3] at h
          cases h
          rfl
        · rw [if_neg c3] at h
          by_cases c4 : tx1 < 0 ∧ st1.text_object.content ≠ []
          · rw [if_pos c4] at h
            cases h
            rfl
          · rw [if_neg c4] at h
            by_cases c5 : tx1 > 0 ∧ st1.text_object.content ≠ []
            · rw [if_pos c5] at h
              cases hf : st1.font with
              | none =>
                rw [hf] at h
                cases h
              | some f =>
                rw [hf] at h
                simp only [] at h
                by_cases c6 : tx1 - st1.x_displacement > xThreshold * f.size
                · rw [if_pos c6] at h
                  cases h
                  rfl
                · rw [if_neg c6] at h
                  cases h
                  rfl
            · rw [if_neg c5] at h
              cases h
              rfl

/-- Witness for C7 at the spec's concrete inputs: `tx = 50`, `ty = -10`,
prior `td_x_translation = -50`, empty content. -/
theorem td_wrapped_line_witness :
    moveTextPosition { td_x_translation := -50 } 50 (-10) =
      some { text_object := { content := [RETURN_G] }
             td_x_translation := 0
             td_y_translation := -10
             x_displacement := 0 } := by
  have h := (td_wrapped_line { td_x_translation := -50 } 50 (-10)
    (by norm_num)
    (by show ratAbs ((50 : ℚ) + -50) < xThreshold; norm_num [ratAbs, xThreshold])).1
  rw [h]
  simp

/-! ### C6 — what finalization guarantees about emitted TextObjects -/

/-- The content neither starts nor ends with (Python) whitespace. -/
def noEdgeWs (l : List Char) : Bool :=
  (match l.head? with
   | some c => !isPyWs c
   | none => true) &&
  (match l.getLast? with
   | some c => !isPyWs c
   | none => true)

lemma dropWhile_head_not (p : Char → Bool) :
    ∀ (l : List Char) (c : Char), (l.dropWhile p).head? = some c →
      p c = false := by
  intro l
  induction l with
  | nil =>
    intro c h
    cases h
  | cons a l ih =>
    intro c h
    rw [List.dropWhile_cons] at h
    by_cases ha : p a
    · rw [if_pos ha] at h
      exact ih c h
    · rw [if_neg ha] at h
      cases h
      exact Bool.of_not_eq_true ha

lemma dropWhile_getLast_keep (p : Char → Bool) :
    ∀ l : List Char,
      l.dropWhile p = [] ∨ (l.dropWhile p).getLast? = l.getLast? := by
  intro l
  induction l with
  | nil => exact Or.inl rfl
  | cons a l ih =>
    rw [List.dropWhile_cons]
    by_cases ha : p a
    · rw [if_pos ha]
      rcases ih with h | h
      · exact Or.inl h
      · cases l with
        | nil => exact Or.inl rfl
        | cons b2 m2 =>
          right
          rw [List.getLast?_cons_cons]
          exact h
    · rw [if_neg ha]
      exact Or.inr rfl

lemma pyStripList_noEdgeWs (l : List Char) :
    noEdgeWs (pyStripList l) = true := by
  unfold pyStripList noEdgeWs
  rw [Bool.and_eq_true]
  constructor
  · rw [List.head?_reverse]
    rcases dropWhile_getLast_keep isPyWs ((l.dropWhile isPyWs).reverse)
      with h | h
    · rw [h]
      rfl
    · rw [h, List.getLast?_reverse]
      cases hh : (l.dropWhile isPyWs).head? with
      | none => rfl
      | some c =>
        have hc := dropWhile_head_not isPyWs l c hh
        simp [hc]
  · rw [List.getLast?_reverse]
    cases hh : ((l.dropWhile isPyWs).reverse.dropWhile isPyWs).head? with
    | none => rfl
    | some c =>
      have hc := dropWhile_head_not isPyWs _ c hh
      simp [hc]

/-- Every object `_end_text_object` appends has whitespace-trimmed
content; all other objects were already on the list. -/
lemma mem_endTextObject (st : ExtState) (o : TextObj)
    (ho : o ∈ (endTextObject st).text_objects) :
    o ∈ st.text_objects ∨ noEdgeWs o.content = true := by
  unfold endTextObject at ho
  by_cases hc : st.text_object.content ≠ []
  · rw [if_pos hc] at ho
    rcases List.mem_append.mp ho with h1 | h1
    · exact Or.inl h1
    · rw [List.mem_singleton] at h1
      subst h1
      exact Or.inr (pyStripList_noEdgeWs _)
  · rw [if_neg hc] at ho
    exact Or.inl ho

lemma setOrigin_objects (st : ExtState) (cm tm : Mat6) :
    (setOrigin st cm tm).text_objects = st.text_objects := by
  unfold setOrigin
  cases st.text_object.bounding_box <;> rfl

lemma handleTextString_objects (st : ExtState) (bs : List Nat)
    (st' : ExtState) (h : handleTextString st bs = some st') :
    st'.text_objects = st.text_objects := by
  unfold handleTextString at h
  cases hf : st.font with
  | none =>
    rw [hf] at h
    cases h
  | some f =>
    rw [hf] at h
    simp only [] at h
    cases hd : decodeBytes f bs with
    | none =>
      rw [hd] at h
      cases h
    | some cw =>
      obtain ⟨c, w⟩ := cw
      rw [hd] at h
      simp only [] at h
      cases hb : st.text_object.bounding_box with
      | none =>
        rw [hb] at h
        cases h
      | some bb =>
        rw [hb] at h
        cases h
        rfl

lemma tjNumber_objects (st : ExtState) (n : ℚ) (st' : ExtState)
    (h : tjNumber st n = some st') : st'.text_objects = st.text_objects := by
  unfold tjNumber at h
  cases hf : st.font with
  | none =>
    rw [hf] at h
    cases h
  | some f =>
    rw [hf] at h
    simp only [] at h
    cases hb : st.text_object.bounding_box with
    | none =>
      rw [hb] at h
      cases h
    | some bb =>
      rw [hb] at h
      cases h
      rfl

lemma tjLoop_objects :
    ∀ (items : List (List Nat ⊕ ℚ)) (st st' : ExtState),
      tjLoop st items = some st' → st'.text_objects = st.text_objects := by
  intro items
  induction items with
  | nil =>
    intro st st' h
    cases h
    rfl
  | cons item items ih =>
    intro st st' h
    cases item with
    | inl bs =>
      rw [tjLoop] at h
      cases hs : handleTextString st bs with
      | none =>
        rw [hs] at h
        cases h
      | some s1 =>
        rw [hs, Option.some_bind] at h
        rw [ih s1 st' h, handleTextString_objects st bs s1 hs]
    | inr n =>
      rw [tjLoop] at h
      cases hs : tjNumber st n with
      | none =>
        rw [hs] at h
        cases h
      | some s1 =>
        rw [hs, Option.some_bind] at h
        rw [ih s1 st' h, tjNumber_objects st n s1 hs]

/-- One visitor step only appends whitespace-trimmed objects. -/
lemma stepOp_mem (st : ExtState) (op : PdfOp) (st' : ExtState) (o : TextObj)
    (h : stepOp st op = some st') (ho : o ∈ st'.text_objects) :
    o ∈ st.text_objects ∨ noEdgeWs o.content = true := by
  cases op with
  | endText =>
    cases h
    exact mem_endTextObject st o ho
  | save =>
    cases h
    exact Or.inl ho
  | restore =>
    rw [stepOp] at h
    unfold restoreGraphicsState at h
    simp only [] at h
    cases hs : (endTextObject st).font_stack with
    | nil =>
      rw [hs] at h
      cases h
    | cons f rest =>
      rw [hs] at h
      cases h
      exact mem_endTextObject st o ho
  | moveText tx ty =>
    rw [stepOp, moveTextPosition] at h
    by_cases c1 : ty < 0 ∧ ratAbs (tx + st.td_x_translation) < xThreshold
    · rw [if_pos c1] at h
      cases h
      exact Or.inl ho
    · rw [if_neg c1] at h
      by_cases c2 : ty > 0 ∧ ratAbs (ty + st.td_y_translation) < yThreshold
      · rw [if_pos c2] at h
        cases h
        exact Or.inl ho
      · rw [if_neg c2] at h
        by_cases c3 : ratAbs ty ≥ yThreshold
        · rw [if_pos c3] at h
          cases h
          exact mem_endTextObject st o ho
        · rw [if_neg c3] at h
          by_cases c4 : tx < 0 ∧ st.text_object.content ≠ []
          · rw [if_pos c4] at h
            cases h
            exact Or.inl ho
          · rw [if_neg c4] at h
            by_cases c5 : tx > 0 ∧ st.text_object.content ≠ []
            · rw [if_pos c5] at h
              cases hf : st.font with
              | none =>
                rw [hf] at h
                cases h
              | some f =>
                rw [hf] at h
                simp only [] at h
                by_cases c6 : tx - st.x_displacement > xThreshold * f.size
                · rw [if_pos c6] at h
                  cases h
                  exact Or.inl ho
                · rw [if_neg c6] at h
                  cases h
                  exact Or.inl ho
            · rw [if_neg c5] at h
              cases h
              exact Or.inl ho
  | setFontOp f =>
    cases h
    exact mem_endTextObject st o ho
  | showText bs cm tm =>
    rw [stepOp] at h
    unfold showTextString at h
    have h1 := handleTextString_objects _ bs st' h
    rw [setOrigin_objects] at h1
    rw [h1] at ho
    exact Or.inl ho
  | showTexts items cm tm =>
    rw [stepOp] at h
    unfold showTextStrings at h
    have h1 := tjLoop_objects items _ st' h
    rw [setOrigin_objects] at h1
    rw [h1] at ho
    exact Or.inl ho

lemma runOps_trimmed :
    ∀ (ops : List PdfOp) (st st' : ExtState), runOps ops st = some st' →
      (∀ o ∈ st.text_objects, noEdgeWs o.content = true) →
      (∀ o ∈ st'.text_objects, noEdgeWs o.content = true) := by
  intro ops
  induction ops with
  | nil =>
    intro st st' h hP
    cases h
    exact hP
  | cons op ops ih =>
    intro st st' h hP
    rw [runOps] at h
    cases hs : stepOp st op with
    | none =>
      rw [hs] at h
      cases h
    | some st1 =>
      rw [hs, Option.some_bind] at h
      refine ih st1 st' h ?_
      intro o ho
      rcases stepOp_mem st op st1 o hs ho with h1 | h1
      · exact hP o h1
      · exact h1

/-- C6 (amended): every TextObject the extractor appends to the page's list
has content that neither starts nor ends with whitespace; however, the
content may retain a trailing `RETURN` (finalization strips only one) and
`font` / `bounding_box` may be null (when no `Tf` was seen or no text was
shown before finalization). -/
theorem emitted_content_trimmed (ops : List PdfOp) (st : ExtState)
    (h : runOps ops initExtState = some st) :
    ∀ o ∈ st.text_objects, noEdgeWs o.content = true :=
  runOps_trimmed ops initExtState st h (by
    intro o ho
    cases ho)

/-- The conjunction asserted by C6 for every emitted object, evaluated on
the final state of an operator run. -/
def emittedClaimHolds (ops : List PdfOp) : Option Bool :=
  (runOps ops initExtState).map (fun st =>
    st.text_objects.all (fun o =>
      o.font.isSome && o.bounding_box.isSome && noEdgeWs o.content &&
        !(o.content.getLast? == some RETURN_G)))

def fontA : PdfFont :=
  { name := "Helv", size := 12, characters := [(65, "A")],
    widths := [(65, 500)] }

def idMat : Mat6 := ⟨1, 0, 0, 1, 0, 0⟩

/-- A content stream whose finalizations append an object with null font
and bounding box (a lone wrapped-line `Td` before any `Tf`), and an object
whose content keeps one of its two accumulated trailing `RETURN`s. -/
def c6Ops : List PdfOp :=
  [.moveText 0 (-10), .endText, .setFontOp fontA,
   .showText [65] idMat idMat, .moveText 0 (-10), .moveText 0 (-10),
   .endText]

set_option maxRecDepth 10000 in
/-- Counterexample to C6 as stated: running `c6Ops` appends a TextObject
with `font = none` and `bounding_box = none`, and another whose content
ends with `RETURN`. -/
theorem emitted_invariant_counterexample :
    emittedClaimHolds c6Ops = some false := by
  with_unfolding_all decide

def c6Obj2 : TextObj :=
  { content := ['A', RETURN_G], font := some fontA,
    bounding_box := some { x_min := 0, y_min := 0, width := 6, height := 0 } }

/-- The extractor states after each of the seven operators of `c6Ops`. -/
def c6St1 : ExtState :=
  { text_object := { content := [RETURN_G] }, td_y_translation := -10 }

def c6St2 : ExtState :=
  { text_objects := [⟨[], none, none⟩], td_y_translation := -10 }

def c6St3 : ExtState :=
  { text_objects := [⟨[], none, none⟩], font := some fontA,
    td_y_translation := -10 }

def c6St4 : ExtState :=
  { text_objects := [⟨[], none, none⟩]
    text_object := { content := ['A'], bounding_box := some ⟨0, 0, 6, 0⟩ }
    font := some fontA
    x_displacement := 6
    td_y_translation := -10 }

def c6St5 : ExtState :=
  { text_objects := [⟨[], none, none⟩]
    text_object := { content := ['A', RETURN_G],
                     bounding_box := some ⟨0, 0, 6, 0⟩ }
    font := some fontA
    td_y_translation := -20 }

def c6St6 : ExtState :=
  { text_objects := [⟨[], none, none⟩]
    text_object := { content := ['A', RETURN_G, RETURN_G],
                     bounding_box := some ⟨0, 0, 6, 0⟩ }
    font := some fontA
    td_y_translation := -30 }

def c6Final : ExtState :=
  { text_objects := [⟨[], none, none⟩, c6Obj2]
    font := some fontA
    td_y_translation := -30 }

lemma ratCeil_zero : ratCeil 0 = 0 := by
  unfold ratCeil
  rw [show (-(0:ℚ)) = ((0 : Int) : ℚ) by norm_num]
  rw [Rat.num_intCast, Rat.den_intCast]
  decide

lemma ratCeil_six : ratCeil 6 = 6 := by
  unfold ratCeil
  rw [show (-(6:ℚ)) = ((-6 : Int) : ℚ) by norm_num]
  rw [Rat.num_intCast, Rat.den_intCast]
  decide

/-- One wrapped-line `Td` with `tx = 0`, in the state shapes reached by
`c6Ops`. -/
lemma c6_moveText_step (st : ExtState) (h0 : st.td_x_translation = 0) :
    moveTextPosition st 0 (-10) = some { st with
      text_object := { st.text_object with
        content := st.text_object.content ++ [RETURN_G] }
      td_x_translation := 0
      td_y_translation := st.td_y_translation + (-10)
      x_displacement := 0 } := by
  rw [moveTextPosition, if_pos]
  constructor
  · norm_num
  · rw [h0]
    norm_num [ratAbs, xThreshold]

/-- Witness for C6 (amended): the second object emitted by `c6Ops` keeps a
trailing `RETURN` but its content is whitespace-trimmed. -/
theorem emitted_content_trimmed_witness : noEdgeWs c6Obj2.content = true := by
  have h1 : stepOp initExtState (PdfOp.moveText 0 (-10)) = some c6St1 := by
    rw [stepOp, c6_moveText_step initExtState rfl]
    simp [initExtState, c6St1]
  have h2 : stepOp c6St1 PdfOp.endText = some c6St2 := by
    decide
  have h3 : stepOp c6St2 (PdfOp.setFontOp fontA) = some c6St3 := by
    decide
  have h4 : stepOp c6St3 (PdfOp.showText [65] idMat idMat) = some c6St4 := by
    have hso : setOrigin c6St3 idMat idMat = { c6St3 with
        text_object := { c6St3.text_object with
          bounding_box := some ⟨0, 0, 0, 0⟩ } } := by
      show ({ c6St3 with
        text_object := { c6St3.text_object with
          bounding_box := some
            { x_min := ratCeil (originOf idMat idMat).1,
              y_min := ratCeil (originOf idMat idMat).2 } } } : ExtState) = _
      have horig : originOf idMat idMat = (0, 0) := by
        norm_num [originOf, idMat]
      rw [horig]
      simp [ratCeil_zero]
    have hdec : decodeBytes fontA [65] = some (['A'], 500) := by decide
    rw [stepOp]
    unfold showTextString
    rw [hso]
    unfold handleTextString
    simp only [c6St3, hdec]
    have hs : (0 : ℚ) + ((500 : Int) : ℚ) / 1000 * fontA.size = 6 := by
      rw [show fontA.size = (12 : ℚ) from rfl]
      norm_num
    rw [hs, if_pos (show (((0 : Int) : ℚ)) < (6 : ℚ) by norm_num),
      ratCeil_six]
    simp [c6St4, fontA]
  have h5 : stepOp c6St4 (PdfOp.moveText 0 (-10)) = some c6St5 := by
    rw [stepOp, c6_moveText_step c6St4 rfl]
    simp only [c6St4, c6St5]
    norm_num
  have h6 : stepOp c6St5 (PdfOp.moveText 0 (-10)) = some c6St6 := by
    rw [stepOp, c6_moveText_step c6St5 rfl]
    simp only [c6St5, c6St6]
    norm_num
  have h7 : stepOp c6St6 PdfOp.endText = some c6Final := by
    decide
  have hrun : runOps c6Ops initExtState = some c6Final := by
    simp only [c6Ops, runOps, h1, h2, h3, h4, h5, h6, h7, Option.some_bind]
  exact emitted_content_trimmed c6Ops c6Final hrun c6Obj2 (by decide)

end MRP
